import Mathlib

/-!
# ToyFS metadata engine: a shallow embedding

This file embeds the metadata engine of the toyfs kernel module
(block allocator, inode allocator, directory entry engine, inode
lifecycle, superblock counters) as executable Lean definitions and
proves properties of the operations.

Modelling conventions:
* Machine integers are `Nat`; the few places where C integer
  conversion semantics matter (`toyfs_get_block`'s `unsigned long`
  assignment) take explicit `% 2^w` reductions.
* The module is built by the kernel build system, which compiles with
  `-funsigned-char`; `char` values read from the bitmap are therefore
  unsigned bytes in `0..255`.
* Buffer-head I/O (`sb_bread`) is modelled as always succeeding; the
  `-ENOMEM` paths of the directory engine are unreachable in the model.
  Reference counting of buffer heads (`brelse`) has no functional
  effect and is elided.
* The block device is a function `Store : Nat → TfsBlock`; a block is
  either directory-entry content or symlink-target content.  Bytes of
  a data block that the code never wrote are modelled as zero
  (empty strings / invalid entries).
* Fallible operations return their error and the (possibly mutated)
  state, mirroring the fact that the C code mutates in place even on
  some failure paths.  `BUG()` is modelled as the distinguished error
  `TfsErr.EBUG`; no caller continues past it.
-/

set_option maxRecDepth 8192

namespace ToyFS

instance exceptDecidableEq {ε α : Type _} [DecidableEq ε] [DecidableEq α] :
    DecidableEq (Except ε α) := fun x y =>
  match x, y with
  | .error e, .error f =>
    if h : e = f then isTrue (by rw [h])
    else isFalse (fun hc => h (by injection hc))
  | .error _, .ok _ => isFalse (fun hc => Except.noConfusion hc)
  | .ok _, .error _ => isFalse (fun hc => Except.noConfusion hc)
  | .ok a, .ok b =>
    if h : a = b then isTrue (by rw [h])
    else isFalse (fun hc => h (by injection hc))

/-! ## Volume layout constants (toyfs_types.h) -/

def TFS_BSIZE : Nat := 2048
def TFS_MAX_BLKS : Nat := 512
def TFS_INODE_COUNT : Nat := 32
def TFS_MAX_INO_BLKS : Nat := 7
def TFS_MAX_NLEN : Nat := 28
def TFS_INVALID : Nat := 0xdeadbeef
def TFS_INODE_INUSE : Nat := 1
def TFS_INODE_FREE : Nat := 0
def TFS_ENTRIES_PER_BLOCK : Nat := 64

/-- Error kinds used by the engine (negative errnos in the C code). -/
inductive TfsErr where
  | ENOSPC
  | ENOENT
  | ENOMEM
  | EFBIG
  | ENAMETOOLONG
  | ENOTEMPTY
  | EIO
  | EINVAL
  /-- `BUG()`: a fatal invariant violation; the kernel halts. -/
  | EBUG
  deriving DecidableEq, Repr

abbrev TfsRes (α : Type) := Except TfsErr α

/-- In-core superblock info (`struct tfs_fs_info`).  The block bitmap
buffer `s_bmap_bh` is modelled bit-per-block as a `List Bool` of
length `TFS_MAX_BLKS` (bit `i` of byte `g` is entry `8*g+i`). -/
structure TfsFsInfo where
  s_bfree : Nat
  s_ifree : Nat
  s_inodes : List Nat
  bmap : List Bool
  deriving DecidableEq, Repr

/-- In-core inode: the fields of `struct inode` the engine reads and
writes, plus the toyfs-specific `struct tfs_inode_info` fields. -/
structure TfsInode where
  i_ino : Nat
  i_mode : Nat
  i_nlink : Nat
  i_uid : Nat
  i_gid : Nat
  i_size : Nat
  i_blocks : Nat
  i_addr : List Nat
  i_link : String
  deriving DecidableEq, Repr

/-- On-disk inode record (`struct tfs_dinode`). -/
structure TfsDinode where
  i_mode : Nat
  i_nlink : Nat
  i_atime : Nat
  i_mtime : Nat
  i_ctime : Nat
  i_uid : Nat
  i_gid : Nat
  i_size : Nat
  i_blocks : Nat
  i_addr : List Nat
  deriving DecidableEq, Repr

/-- On-disk directory entry (`struct tfs_dentry`).  A C name is its
string up to the first NUL; `d_name[0] = '\x7b'` is not involved here,
clearing the first byte makes the stored C string empty. -/
structure TfsDentry where
  d_ino : Nat
  d_name : String
  deriving DecidableEq, Repr

/-- Content of one data block, as the engine interprets it. -/
inductive TfsBlock where
  | dirB (es : List TfsDentry)
  | lnkB (target : String)
  deriving DecidableEq, Repr

/-- The data-block region of the device. -/
abbrev Store := Nat → TfsBlock

/-- Read a block as directory content (reinterpreting the raw bytes,
as `(struct tfs_dentry *)bh->b_data` does). -/
def TfsBlock.asDir : TfsBlock → List TfsDentry
  | .dirB es => es
  | .lnkB _ => []

/-! ## Generic first-hit scan

Both allocators and `find_next_zero_bit` are bounded linear scans; C's
`for (i = lo; i < hi; i++) { if (p i) break; }` is the following fuel
recursion: it returns the first `j ∈ [i, i+fuel)` satisfying `p`, and
`i+fuel` when none does. -/
def scanFirst (p : Nat → Bool) : Nat → Nat → Nat
  | i, 0 => i
  | i, fuel+1 => if p i then i else scanFirst p (i+1) fuel

theorem scanFirst_ge (p : Nat → Bool) (i fuel : Nat) :
    i ≤ scanFirst p i fuel := by
  induction fuel generalizing i with
  | zero => simp [scanFirst]
  | succ n ih =>
    simp only [scanFirst]
    split
    · exact Nat.le_refl i
    · exact Nat.le_trans (Nat.le_succ i) (ih (i+1))

theorem scanFirst_le (p : Nat → Bool) (i fuel : Nat) :
    scanFirst p i fuel ≤ i + fuel := by
  induction fuel generalizing i with
  | zero => simp [scanFirst]
  | succ n ih =>
    simp only [scanFirst]
    split
    · omega
    · have := ih (i+1); omega

theorem scanFirst_min (p : Nat → Bool) (i fuel : Nat) :
    ∀ j, i ≤ j → j < scanFirst p i fuel → p j = false := by
  induction fuel generalizing i with
  | zero => simp [scanFirst]; omega
  | succ n ih =>
    intro j hij hlt
    simp only [scanFirst] at hlt
    by_cases hp : p i
    · rw [if_pos hp] at hlt; omega
    · simp [hp] at hlt
      rcases Nat.eq_or_lt_of_le hij with h | h
      · subst h; simpa using hp
      · exact ih (i+1) j h hlt

theorem scanFirst_hit (p : Nat → Bool) (i fuel : Nat)
    (h : scanFirst p i fuel < i + fuel) :
    p (scanFirst p i fuel) = true := by
  induction fuel generalizing i with
  | zero => simp [scanFirst] at h
  | succ n ih =>
    simp only [scanFirst] at h ⊢
    by_cases hp : p i
    · simp [hp]
    · simp [hp] at h ⊢
      exact ih (i+1) (by omega)

/-- If something in range satisfies `p`, the scan stops strictly
before the end. -/
theorem scanFirst_lt_of_exists (p : Nat → Bool) (i fuel : Nat)
    (h : ∃ j, i ≤ j ∧ j < i + fuel ∧ p j = true) :
    scanFirst p i fuel < i + fuel := by
  rcases h with ⟨j, hij, hje, hpj⟩
  by_contra hge
  have hend : scanFirst p i fuel = i + fuel := by
    have := scanFirst_le p i fuel; omega
  have := scanFirst_min p i fuel j hij (by omega)
  simp [this] at hpj

/-! ## Block allocator (toyfs_balloc.c) -/

/-- Bit `i` of the bitmap (bytes of the 2048-byte bitmap block beyond
the 64 bytes backing the 512 tracked blocks are modelled as zero). -/
def bmapBit (bmap : List Bool) (i : Nat) : Bool := bmap.getD i false

/-- Value of a byte from its 8 bits (bit 0 is the least significant,
per the little-endian bit numbering of `set_bit`/`find_next_zero_bit`). -/
def byteVal (b0 b1 b2 b3 b4 b5 b6 b7 : Bool) : Nat :=
  (if b0 then 1 else 0) + (if b1 then 2 else 0) +
  (if b2 then 4 else 0) + (if b3 then 8 else 0) +
  (if b4 then 16 else 0) + (if b5 then 32 else 0) +
  (if b6 then 64 else 0) + (if b7 then 128 else 0)

/-- The byte value an 8-bit group of the bitmap presents to the C
code: `bmap[group]`, bit `i` of the byte being block `8*group+i`. -/
def groupByte (bmap : List Bool) (g : Nat) : Nat :=
  byteVal (bmapBit bmap (8*g + 0)) (bmapBit bmap (8*g + 1))
          (bmapBit bmap (8*g + 2)) (bmapBit bmap (8*g + 3))
          (bmapBit bmap (8*g + 4)) (bmapBit bmap (8*g + 5))
          (bmapBit bmap (8*g + 6)) (bmapBit bmap (8*g + 7))

/-- The `for (group = 0; ...)` loop of `toyfs_balloc`: skip groups
whose byte is `0xFF` (the module is compiled with `-funsigned-char`,
so the comparison behaves as on unsigned bytes); the loop leaves
`group` at the first non-full group, or at `TFS_MAX_BLKS/8 = 64`. -/
def ballocGroup (bmap : List Bool) : Nat :=
  scanFirst (fun g => !(groupByte bmap g == 255)) 0 (TFS_MAX_BLKS / 8)

/-- `find_next_zero_bit(&bmap[group], 8, 0)`: first clear bit of the
group, or 8 when the byte is full. -/
def findZeroBit8 (bmap : List Bool) (g : Nat) : Nat :=
  scanFirst (fun i => !(bmapBit bmap (8*g + i))) 0 8

/-- `toyfs_balloc()`: allocate the first free block found by the
group scan, set its bit, decrement `s_bfree`.  Returns the mutated
in-core superblock alongside the result. -/
def toyfs_balloc (tfi : TfsFsInfo) : TfsRes Nat × TfsFsInfo :=
  if tfi.s_bfree = 0 then (.error .ENOSPC, tfi)
  else
    let g := ballocGroup tfi.bmap
    let bit := findZeroBit8 tfi.bmap g
    if bit = 8 then (.error .EBUG, tfi)   -- BUG(): "We must have a free block here"
    else
      let block := 8*g + bit
      (.ok block,
       { tfi with bmap := tfi.bmap.set block true, s_bfree := tfi.s_bfree - 1 })

/-- `toyfs_bfree()`: clear the bit of `block`.  Note the C function
does not touch `s_bfree`; its caller (`toyfs_evict_inode`) adjusts the
count itself. -/
def toyfs_bfree (tfi : TfsFsInfo) (block : Nat) : TfsFsInfo :=
  { tfi with bmap := tfi.bmap.set block false }

/-! ## Inode allocator (toyfs_ialloc in toyfs_inode.c) -/

/-- `toyfs_ialloc()`: fail with `-ENOSPC` when `s_ifree` is zero,
otherwise decrement `s_ifree` and scan the in-use table for the first
free slot; exhausting the scan is `BUG()`. -/
def toyfs_ialloc (tfi : TfsFsInfo) : TfsRes Nat × TfsFsInfo :=
  if tfi.s_ifree = 0 then (.error .ENOSPC, tfi)
  else
    let tfi1 := { tfi with s_ifree := tfi.s_ifree - 1 }
    let i := scanFirst (fun i => tfi.s_inodes.getD i TFS_INODE_INUSE == TFS_INODE_FREE)
              0 TFS_INODE_COUNT
    if i = TFS_INODE_COUNT then (.error .EBUG, tfi1)
    else (.ok i, { tfi1 with s_inodes := tfi1.s_inodes.set i TFS_INODE_INUSE })

/-! ## Inode eviction (toyfs_super.c, toyfs_evict_inode) -/

/-- `toyfs_evict_inode()`: a no-op on the on-disk state while links
remain; otherwise return the inode slot to the free pool, add the
inode's block count to `s_bfree`, and clear the bitmap bit of every
direct block. -/
def toyfs_evict_inode (tfi : TfsFsInfo) (ino : TfsInode) : TfsFsInfo :=
  if ino.i_nlink ≠ 0 then tfi
  else
    let tfi1 := { tfi with
                  s_inodes := tfi.s_inodes.set ino.i_ino TFS_INODE_FREE,
                  s_ifree := tfi.s_ifree + 1,
                  s_bfree := tfi.s_bfree + ino.i_blocks }
    (List.range ino.i_blocks).foldl
      (fun t k => toyfs_bfree t (ino.i_addr.getD k 0)) tfi1

/-! ## Counting helpers -/

/-- Number of cleared bits in the block bitmap. -/
def countClear (bmap : List Bool) : Nat := bmap.countP (fun b => !b)

/-- Number of entries of the inode in-use table marked free. -/
def countFreeSlots (tab : List Nat) : Nat :=
  tab.countP (fun v => v == TFS_INODE_FREE)

theorem countP_set (p : α → Bool) (l : List α) (i : Nat) (a d : α)
    (h : i < l.length) :
    (l.set i a).countP p + (if p (l.getD i d) then 1 else 0) =
      l.countP p + (if p a then 1 else 0) := by
  induction l generalizing i with
  | nil => simp at h
  | cons x xs ih =>
    cases i with
    | zero => simp [List.countP_cons]; omega
    | succ n =>
      simp only [List.set_cons_succ, List.countP_cons, List.getD_cons_succ]
      have := ih n (by simpa using h)
      omega

theorem set_getD_eq_self (l : List α) (i : Nat) (v d : α)
    (h : l.getD i d = v) (hi : i < l.length) : l.set i v = l := by
  induction l generalizing i with
  | nil => simp at hi
  | cons x xs ih =>
    cases i with
    | zero => simp_all
    | succ n =>
      simp only [List.set_cons_succ, List.cons.injEq, true_and]
      exact ih n (by simpa using h) (by simpa using hi)

theorem countClear_set_true (bmap : List Bool) (i : Nat)
    (hi : i < bmap.length) (h : bmapBit bmap i = false) :
    countClear (bmap.set i true) + 1 = countClear bmap := by
  have h2 := countP_set (fun b => !b) bmap i true false hi
  simp only [bmapBit] at h
  rw [h] at h2
  simp only [countClear]
  simp at h2
  omega

theorem countClear_set_false (bmap : List Bool) (i : Nat)
    (hi : i < bmap.length) (h : bmapBit bmap i = true) :
    countClear (bmap.set i false) = countClear bmap + 1 := by
  have h2 := countP_set (fun b => !b) bmap i false false hi
  simp only [bmapBit] at h
  rw [h] at h2
  simp only [countClear]
  simp at h2
  omega

theorem countFreeSlots_set_inuse (tab : List Nat) (i : Nat)
    (hi : i < tab.length) (h : tab.getD i TFS_INODE_INUSE = TFS_INODE_FREE) :
    countFreeSlots (tab.set i TFS_INODE_INUSE) + 1 = countFreeSlots tab := by
  have h2 := countP_set (fun v => v == TFS_INODE_FREE) tab i TFS_INODE_INUSE
    TFS_INODE_INUSE hi
  rw [h] at h2
  simp only [countFreeSlots]
  simp [TFS_INODE_FREE, TFS_INODE_INUSE] at h2 ⊢
  omega

theorem countFreeSlots_set_free (tab : List Nat) (i : Nat)
    (hi : i < tab.length) (h : tab.getD i TFS_INODE_FREE ≠ TFS_INODE_FREE) :
    countFreeSlots (tab.set i TFS_INODE_FREE) = countFreeSlots tab + 1 := by
  have h2 := countP_set (fun v => v == TFS_INODE_FREE) tab i TFS_INODE_FREE
    TFS_INODE_FREE hi
  simp only [beq_iff_eq] at h2
  rw [if_neg h] at h2
  simp only [countFreeSlots]
  simp [TFS_INODE_FREE] at h2 ⊢
  omega

/-! ## Block allocator specification lemmas -/

theorem byteVal_eq_255_iff (b0 b1 b2 b3 b4 b5 b6 b7 : Bool) :
    (byteVal b0 b1 b2 b3 b4 b5 b6 b7 = 255) ↔
    (b0 = true ∧ b1 = true ∧ b2 = true ∧ b3 = true ∧
     b4 = true ∧ b5 = true ∧ b6 = true ∧ b7 = true) := by
  cases b0 <;> cases b1 <;> cases b2 <;> cases b3 <;> cases b4 <;>
    cases b5 <;> cases b6 <;> cases b7 <;> simp [byteVal]

theorem groupByte_eq_255_iff (bmap : List Bool) (g : Nat) :
    groupByte bmap g = 255 ↔ ∀ i, i < 8 → bmapBit bmap (8*g + i) = true := by
  rw [groupByte, byteVal_eq_255_iff]
  constructor
  · rintro ⟨h0, h1, h2, h3, h4, h5, h6, h7⟩ i hi
    interval_cases i <;> simpa
  · intro h
    refine ⟨by simpa using h 0 (by omega), h 1 (by omega), h 2 (by omega),
            h 3 (by omega), h 4 (by omega), h 5 (by omega), h 6 (by omega),
            h 7 (by omega)⟩

theorem ballocGroup_spec (bmap : List Bool) (i : Nat) (hi : i < TFS_MAX_BLKS)
    (hclear : bmapBit bmap i = false) :
    ballocGroup bmap < 64 ∧
    groupByte bmap (ballocGroup bmap) ≠ 255 ∧
    (∀ g', g' < ballocGroup bmap → groupByte bmap g' = 255) := by
  have hne : groupByte bmap (i / 8) ≠ 255 := by
    intro h255
    rw [groupByte_eq_255_iff] at h255
    have h1 := h255 (i % 8) (Nat.mod_lt _ (by omega))
    rw [Nat.div_add_mod i 8] at h1
    rw [hclear] at h1
    exact Bool.false_ne_true h1
  have hex : ∃ j, 0 ≤ j ∧ j < 0 + (TFS_MAX_BLKS / 8) ∧
      (!(groupByte bmap j == 255)) = true := by
    refine ⟨i / 8, by omega, ?_, by simpa using hne⟩
    simp only [TFS_MAX_BLKS] at hi ⊢
    omega
  have hlt := scanFirst_lt_of_exists _ 0 (TFS_MAX_BLKS / 8) hex
  have hhit := scanFirst_hit (fun g => !(groupByte bmap g == 255)) 0 (TFS_MAX_BLKS / 8) hlt
  have hmin := scanFirst_min (fun g => !(groupByte bmap g == 255)) 0 (TFS_MAX_BLKS / 8)
  refine ⟨by simpa [ballocGroup, TFS_MAX_BLKS] using hlt, ?_, ?_⟩
  · simpa [ballocGroup] using hhit
  · intro g' hg'
    have := hmin g' (Nat.zero_le _) (by simpa [ballocGroup] using hg')
    simpa using this

theorem getD_set_ne (l : List α) (i j : Nat) (a d : α) (h : i ≠ j) :
    (l.set i a).getD j d = l.getD j d := by
  induction l generalizing i j with
  | nil => simp
  | cons x xs ih =>
    cases i with
    | zero => cases j with
      | zero => omega
      | succ m => simp
    | succ n => cases j with
      | zero => simp
      | succ m => simpa using ih n m (by omega)

theorem getD_set_self (l : List α) (i : Nat) (a d : α) (h : i < l.length) :
    (l.set i a).getD i d = a := by
  induction l generalizing i with
  | nil => simp at h
  | cons x xs ih =>
    cases i with
    | zero => simp
    | succ n => simpa using ih n (by simpa using h)

/-- `toyfs_balloc` on an exhausted volume: `-ENOSPC`, no mutation. -/
theorem toyfs_balloc_enospc (tfi : TfsFsInfo) (h : tfi.s_bfree = 0) :
    toyfs_balloc tfi = (.error .ENOSPC, tfi) := by
  simp [toyfs_balloc, h]

/-- `toyfs_ialloc` on an exhausted volume: `-ENOSPC`, no mutation. -/
theorem toyfs_ialloc_enospc (tfi : TfsFsInfo) (h : tfi.s_ifree = 0) :
    toyfs_ialloc tfi = (.error .ENOSPC, tfi) := by
  simp [toyfs_ialloc, h]

/-- Success specification of `toyfs_balloc`: when `s_bfree` is nonzero
and some tracked block is actually free, the allocator returns the
lowest clear bit, sets it, and decrements `s_bfree`. -/
theorem toyfs_balloc_ok (tfi : TfsFsInfo) (hfree : tfi.s_bfree ≠ 0)
    (i : Nat) (hi : i < TFS_MAX_BLKS) (hclear : bmapBit tfi.bmap i = false) :
    ∃ b, toyfs_balloc tfi =
        (.ok b, { tfi with bmap := tfi.bmap.set b true,
                           s_bfree := tfi.s_bfree - 1 }) ∧
      bmapBit tfi.bmap b = false ∧ b < TFS_MAX_BLKS ∧
      (∀ j, j < b → bmapBit tfi.bmap j = true) := by
  obtain ⟨hg64, hgne, hgmin⟩ := ballocGroup_spec tfi.bmap i hi hclear
  have hbex : ∃ j, 0 ≤ j ∧ j < 0 + 8 ∧
      (!(bmapBit tfi.bmap (8 * ballocGroup tfi.bmap + j))) = true := by
    by_contra hno
    push_neg at hno
    apply hgne
    rw [groupByte_eq_255_iff]
    intro k hk
    have := hno k (by omega) (by omega)
    simpa using this
  have hlt := scanFirst_lt_of_exists _ 0 8 hbex
  have hhit := scanFirst_hit
    (fun j => !(bmapBit tfi.bmap (8 * ballocGroup tfi.bmap + j))) 0 8 hlt
  have hmin := scanFirst_min
    (fun j => !(bmapBit tfi.bmap (8 * ballocGroup tfi.bmap + j))) 0 8
  set bit := findZeroBit8 tfi.bmap (ballocGroup tfi.bmap) with hbitdef
  have hbit8 : bit < 8 := by simpa [hbitdef, findZeroBit8] using hlt
  refine ⟨8 * ballocGroup tfi.bmap + bit, ?_, ?_, ?_, ?_⟩
  · simp only [toyfs_balloc]
    rw [if_neg hfree, if_neg (by omega : ¬ bit = 8)]
  · have := hhit
    simpa [hbitdef, findZeroBit8] using this
  · simp only [TFS_MAX_BLKS]; omega
  · intro j hj
    by_cases hjg : j / 8 < ballocGroup tfi.bmap
    · have hfull := hgmin (j / 8) hjg
      rw [groupByte_eq_255_iff] at hfull
      have := hfull (j % 8) (Nat.mod_lt _ (by omega))
      rwa [Nat.div_add_mod j 8] at this
    · have hjg' : j / 8 = ballocGroup tfi.bmap := by omega
      have hjbit : j % 8 < bit := by omega
      have := hmin (j % 8) (Nat.zero_le _)
        (by simpa [hbitdef, findZeroBit8] using hjbit)
      have h2 : (!(bmapBit tfi.bmap (8 * ballocGroup tfi.bmap + j % 8))) = false :=
        this
      rw [← hjg'] at h2
      rw [Nat.div_add_mod j 8] at h2
      simpa using h2

/-- Success specification of `toyfs_ialloc`: first free slot, marked
in-use, `s_ifree` decremented. -/
theorem toyfs_ialloc_ok (tfi : TfsFsInfo) (hfree : tfi.s_ifree ≠ 0)
    (i : Nat) (hi : i < TFS_INODE_COUNT)
    (hslot : tfi.s_inodes.getD i TFS_INODE_INUSE = TFS_INODE_FREE) :
    ∃ j, toyfs_ialloc tfi =
        (.ok j, { tfi with s_inodes := tfi.s_inodes.set j TFS_INODE_INUSE,
                           s_ifree := tfi.s_ifree - 1 }) ∧
      j < TFS_INODE_COUNT ∧
      tfi.s_inodes.getD j TFS_INODE_INUSE = TFS_INODE_FREE ∧
      (∀ k, k < j → tfi.s_inodes.getD k TFS_INODE_INUSE ≠ TFS_INODE_FREE) := by
  have hex : ∃ j, 0 ≤ j ∧ j < 0 + TFS_INODE_COUNT ∧
      (tfi.s_inodes.getD j TFS_INODE_INUSE == TFS_INODE_FREE) = true := by
    exact ⟨i, by omega, by simpa [TFS_INODE_COUNT] using hi, by simpa using hslot⟩
  have hlt := scanFirst_lt_of_exists _ 0 TFS_INODE_COUNT hex
  have hhit := scanFirst_hit
    (fun j => tfi.s_inodes.getD j TFS_INODE_INUSE == TFS_INODE_FREE) 0
    TFS_INODE_COUNT hlt
  have hmin := scanFirst_min
    (fun j => tfi.s_inodes.getD j TFS_INODE_INUSE == TFS_INODE_FREE) 0
    TFS_INODE_COUNT
  set j := scanFirst
    (fun j => tfi.s_inodes.getD j TFS_INODE_INUSE == TFS_INODE_FREE) 0
    TFS_INODE_COUNT with hjdef
  have hj32 : j < TFS_INODE_COUNT := by simpa using hlt
  refine ⟨j, ?_, hj32, by simpa using hhit, ?_⟩
  · simp only [toyfs_ialloc]
    rw [if_neg hfree,
        if_neg (by simp only [TFS_INODE_COUNT] at hj32 ⊢; omega : ¬ j = TFS_INODE_COUNT)]
  · intro k hk
    have := hmin k (Nat.zero_le _) (by omega)
    simpa using this

/-- `toyfs_bfree` only clears the bitmap bit: the free counts and the
in-use table are untouched (the count adjustment is the caller's job). -/
theorem toyfs_bfree_spec (tfi : TfsFsInfo) (b : Nat) :
    toyfs_bfree tfi b =
      { tfi with bmap := tfi.bmap.set b false } := rfl

theorem foldl_bfree (f : Nat → Nat) (l : List Nat) (t : TfsFsInfo) :
    l.foldl (fun t k => toyfs_bfree t (f k)) t =
      { t with bmap := l.foldl (fun m k => m.set (f k) false) t.bmap } := by
  induction l generalizing t with
  | nil => rfl
  | cons b rest ih =>
    simp only [List.foldl_cons]
    rw [ih]
    rfl

theorem countClear_clearList (bs : List Nat) (bmap : List Bool)
    (hnd : bs.Nodup) (hset : ∀ b ∈ bs, bmapBit bmap b = true)
    (hlt : ∀ b ∈ bs, b < bmap.length) :
    countClear (bs.foldl (fun m b => m.set b false) bmap) =
      countClear bmap + bs.length := by
  induction bs generalizing bmap with
  | nil => simp
  | cons b rest ih =>
    simp only [List.foldl_cons, List.length_cons]
    rw [ih (bmap.set b false) hnd.of_cons]
    · rw [countClear_set_false bmap b (hlt b (by simp))
        (hset b (by simp))]
      omega
    · intro b' hb'
      have hne : b ≠ b' := by
        intro hcontra
        subst hcontra
        exact (List.nodup_cons.mp hnd).1 hb'
      unfold bmapBit
      rw [getD_set_ne _ _ _ _ _ hne]
      exact hset b' (by simp [hb'])
    · intro b' hb'
      rw [List.length_set]
      exact hlt b' (by simp [hb'])

/-- Eviction with remaining links leaves the on-disk state alone. -/
theorem toyfs_evict_inode_linked (tfi : TfsFsInfo) (ino : TfsInode)
    (h : ino.i_nlink ≠ 0) : toyfs_evict_inode tfi ino = tfi := by
  simp [toyfs_evict_inode, h]

/-- Eviction at link count zero: slot freed, `s_ifree` bumped,
`s_bfree` bumped by the block count, and every direct block's bit
cleared. -/
theorem toyfs_evict_inode_spec (tfi : TfsFsInfo) (ino : TfsInode)
    (h : ino.i_nlink = 0) :
    toyfs_evict_inode tfi ino =
      { tfi with
        s_inodes := tfi.s_inodes.set ino.i_ino TFS_INODE_FREE,
        s_ifree := tfi.s_ifree + 1,
        s_bfree := tfi.s_bfree + ino.i_blocks,
        bmap := (List.range ino.i_blocks).foldl
                  (fun m k => m.set (ino.i_addr.getD k 0) false) tfi.bmap } := by
  simp only [toyfs_evict_inode, h]
  rw [if_neg (by simp)]
  rw [foldl_bfree]

/-! ## Claim C6 -/

/-- C6: allocating a block when `s_bfree` is 0 fails with `-ENOSPC`,
and allocating an inode when `s_ifree` is 0 fails with `-ENOSPC`; in
both cases the bitmap, the in-use table and both free counts (the
whole in-core superblock) are returned unmodified. -/
theorem claim_C6_alloc_exhausted (tfi : TfsFsInfo) :
    (tfi.s_bfree = 0 → toyfs_balloc tfi = (.error .ENOSPC, tfi)) ∧
    (tfi.s_ifree = 0 → toyfs_ialloc tfi = (.error .ENOSPC, tfi)) :=
  ⟨toyfs_balloc_enospc tfi, toyfs_ialloc_enospc tfi⟩

def c6tfi : TfsFsInfo :=
  { s_bfree := 0, s_ifree := 0,
    s_inodes := List.replicate TFS_INODE_COUNT TFS_INODE_INUSE,
    bmap := List.replicate TFS_MAX_BLKS true }

theorem claim_C6_alloc_exhausted_witness :
    toyfs_balloc c6tfi = (.error .ENOSPC, c6tfi) ∧
    toyfs_ialloc c6tfi = (.error .ENOSPC, c6tfi) :=
  ⟨(claim_C6_alloc_exhausted c6tfi).1 rfl,
   (claim_C6_alloc_exhausted c6tfi).2 rfl⟩

/-- Inversion: what a successful `toyfs_balloc` tells us about its
input and output. -/
theorem toyfs_balloc_ok_inv (tfi : TfsFsInfo) (b : Nat) (tfi' : TfsFsInfo)
    (h : toyfs_balloc tfi = (.ok b, tfi')) :
    tfi.s_bfree ≠ 0 ∧ bmapBit tfi.bmap b = false ∧
    tfi' = { tfi with bmap := tfi.bmap.set b true,
                      s_bfree := tfi.s_bfree - 1 } := by
  by_cases h0 : tfi.s_bfree = 0
  · rw [toyfs_balloc_enospc tfi h0] at h
    simp at h
  · simp only [toyfs_balloc, if_neg h0] at h
    by_cases h8 : findZeroBit8 tfi.bmap (ballocGroup tfi.bmap) = 8
    · rw [if_pos h8] at h
      simp at h
    · rw [if_neg h8] at h
      have hlt : findZeroBit8 tfi.bmap (ballocGroup tfi.bmap) < 8 := by
        have := scanFirst_le (fun i => !(bmapBit tfi.bmap
          (8 * ballocGroup tfi.bmap + i))) 0 8
        simp only [findZeroBit8] at h8 ⊢
        omega
      have hclear := scanFirst_hit (fun i => !(bmapBit tfi.bmap
          (8 * ballocGroup tfi.bmap + i))) 0 8 (by simpa using hlt)
      injection h with h1 h2
      injection h1 with h1
      subst h1
      subst h2
      refine ⟨h0, ?_, rfl⟩
      simpa [findZeroBit8] using hclear

/-- Inversion: what a successful `toyfs_ialloc` tells us. -/
theorem toyfs_ialloc_ok_inv (tfi : TfsFsInfo) (i : Nat) (tfi' : TfsFsInfo)
    (h : toyfs_ialloc tfi = (.ok i, tfi')) :
    tfi.s_ifree ≠ 0 ∧
    tfi.s_inodes.getD i TFS_INODE_INUSE = TFS_INODE_FREE ∧
    i < TFS_INODE_COUNT ∧
    tfi' = { tfi with s_inodes := tfi.s_inodes.set i TFS_INODE_INUSE,
                      s_ifree := tfi.s_ifree - 1 } := by
  by_cases h0 : tfi.s_ifree = 0
  · rw [toyfs_ialloc_enospc tfi h0] at h
    simp at h
  · simp only [toyfs_ialloc, if_neg h0] at h
    by_cases h32 : scanFirst
        (fun j => tfi.s_inodes.getD j TFS_INODE_INUSE == TFS_INODE_FREE) 0
        TFS_INODE_COUNT = TFS_INODE_COUNT
    · rw [if_pos h32] at h
      simp at h
    · rw [if_neg h32] at h
      have hle := scanFirst_le
        (fun j => tfi.s_inodes.getD j TFS_INODE_INUSE == TFS_INODE_FREE) 0
        TFS_INODE_COUNT
      have hlt : scanFirst
          (fun j => tfi.s_inodes.getD j TFS_INODE_INUSE == TFS_INODE_FREE) 0
          TFS_INODE_COUNT < TFS_INODE_COUNT := by omega
      have hhit := scanFirst_hit
        (fun j => tfi.s_inodes.getD j TFS_INODE_INUSE == TFS_INODE_FREE) 0
        TFS_INODE_COUNT (by simpa using hlt)
      injection h with h1 h2
      injection h1 with h1
      subst h1
      subst h2
      exact ⟨h0, by simpa using hhit, hlt, rfl⟩

/-- The block chosen by `toyfs_balloc` depends only on the bitmap (as
long as the `s_bfree` guard passes): the scan is deterministic. -/
theorem toyfs_balloc_deterministic (t1 t2 : TfsFsInfo)
    (hb : t1.bmap = t2.bmap) (h1 : t1.s_bfree ≠ 0) (h2 : t2.s_bfree ≠ 0) :
    (toyfs_balloc t1).1 = (toyfs_balloc t2).1 := by
  simp only [toyfs_balloc, if_neg h1, if_neg h2, hb]
  split <;> rfl

/-! ## Claim C3 -/

/-- C3: when `s_bfree` is nonzero (and the bitmap is not corrupt,
i.e. some tracked block really is clear — the spec declares the other
case a fatal invariant violation), `toyfs_balloc` returns the
lowest-numbered clear bit, sets that bit, and decrements `s_bfree` by
one. -/
theorem claim_C3_balloc_first_fit (tfi : TfsFsInfo)
    (hfree : tfi.s_bfree ≠ 0) (i : Nat) (hi : i < TFS_MAX_BLKS)
    (hclear : bmapBit tfi.bmap i = false) :
    ∃ b, toyfs_balloc tfi =
        (.ok b, { tfi with bmap := tfi.bmap.set b true,
                           s_bfree := tfi.s_bfree - 1 }) ∧
      bmapBit tfi.bmap b = false ∧
      (∀ j, j < b → bmapBit tfi.bmap j = true) := by
  obtain ⟨b, heq, hb, _, hmin⟩ := toyfs_balloc_ok tfi hfree i hi hclear
  exact ⟨b, heq, hb, hmin⟩

/-- A freshly formatted volume: blocks 0..2 (superblock, inode table,
bitmap) in use, root inode 0 in use. -/
def freshTfi : TfsFsInfo :=
  { s_bfree := 509, s_ifree := 31,
    s_inodes := (List.replicate TFS_INODE_COUNT TFS_INODE_FREE).set 0
      TFS_INODE_INUSE,
    bmap := (((List.replicate TFS_MAX_BLKS false).set 0 true).set 1
      true).set 2 true }

theorem claim_C3_balloc_first_fit_witness :
    ∃ b, toyfs_balloc freshTfi =
        (.ok b, { freshTfi with bmap := freshTfi.bmap.set b true,
                                s_bfree := freshTfi.s_bfree - 1 }) ∧
      bmapBit freshTfi.bmap b = false ∧
      (∀ j, j < b → bmapBit freshTfi.bmap j = true) :=
  claim_C3_balloc_first_fit freshTfi (by decide) 3 (by decide) (by decide)

theorem getD_ne_default_lt (l : List α) (i : Nat) (d : α)
    (h : l.getD i d ≠ d) : i < l.length := by
  induction l generalizing i with
  | nil => simp at h
  | cons x xs ih =>
    cases i with
    | zero => simp
    | succ n =>
      simp only [List.getD_cons_succ] at h
      simpa using ih n h

theorem getD_default_irrel (l : List α) (i : Nat) (d d' : α)
    (h : i < l.length) : l.getD i d = l.getD i d' := by
  induction l generalizing i with
  | nil => simp at h
  | cons x xs ih =>
    cases i with
    | zero => simp
    | succ n => simpa using ih n (by simpa using h)

/-! ## Claim C5 -/

def c5tfi : TfsFsInfo :=
  { s_bfree := 1, s_ifree := 0,
    s_inodes := List.replicate TFS_INODE_COUNT TFS_INODE_INUSE,
    bmap := (List.replicate TFS_MAX_BLKS true).set 3 false }

def c5t2 : TfsFsInfo := toyfs_bfree (toyfs_balloc c5tfi).2 3

/-- C5 as stated is false: on a volume whose only free block is 3
(`s_bfree = 1`), allocate returns 3, `toyfs_bfree` returns the bitmap
to its prior contents but does not increment `s_bfree`, so the second
allocation fails with `-ENOSPC` instead of returning block 3, and the
free count ends at 0 instead of returning to 1. -/
theorem claim_C5_counterexample :
    (toyfs_balloc c5tfi).1 = .ok 3 ∧
    c5t2.bmap = c5tfi.bmap ∧
    toyfs_balloc c5t2 = (.error .ENOSPC, c5t2) ∧
    c5t2.s_bfree ≠ c5tfi.s_bfree := by
  refine ⟨by decide, by decide, by decide, by decide⟩

/-- C5 amended: with no intervening activity, allocate-free-allocate
returns the same block number provided at least two blocks were free
before the first allocation (`toyfs_bfree` does not increment
`s_bfree`, so the guard needs the extra headroom), and the
free-block-count does not return to its prior value: it is one lower
after the free and two lower after the re-allocation.  For inodes the
claim holds as stated: allocation followed by eviction of that inode
restores the in-core superblock exactly, and re-allocation returns the
same inode number. -/
theorem claim_C5_alloc_free_alloc (tfi : TfsFsInfo) (ino : TfsInode)
    (b i : Nat) (t1 u1 : TfsFsInfo)
    (hb : toyfs_balloc tfi = (.ok b, t1)) (h2 : 2 ≤ tfi.s_bfree)
    (hi : toyfs_ialloc tfi = (.ok i, u1))
    (hino : ino.i_ino = i) (hnl : ino.i_nlink = 0)
    (hblk : ino.i_blocks = 0) :
    (toyfs_bfree t1 b).bmap = tfi.bmap ∧
    (toyfs_bfree t1 b).s_bfree + 1 = tfi.s_bfree ∧
    (toyfs_balloc (toyfs_bfree t1 b)).1 = .ok b ∧
    (toyfs_balloc (toyfs_bfree t1 b)).2.s_bfree + 2 = tfi.s_bfree ∧
    toyfs_evict_inode u1 ino = tfi ∧
    toyfs_ialloc (toyfs_evict_inode u1 ino) = (.ok i, u1) := by
  obtain ⟨hb0, hclear, ht1⟩ := toyfs_balloc_ok_inv tfi b t1 hb
  have hbmap : (toyfs_bfree t1 b).bmap = tfi.bmap := by
    rw [toyfs_bfree_spec, ht1]
    show (tfi.bmap.set b true).set b false = tfi.bmap
    rw [List.set_set]
    by_cases hblen : b < tfi.bmap.length
    · exact set_getD_eq_self tfi.bmap b false false hclear hblen
    · exact List.set_eq_of_length_le (by omega)
  have hcnt : (toyfs_bfree t1 b).s_bfree + 1 = tfi.s_bfree := by
    rw [toyfs_bfree_spec, ht1]
    show tfi.s_bfree - 1 + 1 = tfi.s_bfree
    omega
  have hfree2 : (toyfs_bfree t1 b).s_bfree ≠ 0 := by omega
  have hsame : (toyfs_balloc (toyfs_bfree t1 b)).1 = .ok b := by
    rw [toyfs_balloc_deterministic (toyfs_bfree t1 b) tfi hbmap hfree2 hb0]
    rw [hb]
  have hpair : toyfs_balloc (toyfs_bfree t1 b) =
      (.ok b, (toyfs_balloc (toyfs_bfree t1 b)).2) := by
    rw [← hsame]
  obtain ⟨_, _, hres⟩ :=
    toyfs_balloc_ok_inv (toyfs_bfree t1 b) b _ hpair
  have hcnt2 : (toyfs_balloc (toyfs_bfree t1 b)).2.s_bfree + 2 =
      tfi.s_bfree := by
    rw [hres]
    show (toyfs_bfree t1 b).s_bfree - 1 + 2 = tfi.s_bfree
    omega
  obtain ⟨hi0, hslot, hi32, hu1⟩ := toyfs_ialloc_ok_inv tfi i u1 hi
  have hilen : i < tfi.s_inodes.length :=
    getD_ne_default_lt tfi.s_inodes i TFS_INODE_INUSE (by
      rw [hslot]; simp [TFS_INODE_FREE, TFS_INODE_INUSE])
  have hsinodes : ((tfi.s_inodes.set i TFS_INODE_INUSE).set i
      TFS_INODE_FREE) = tfi.s_inodes := by
    rw [List.set_set]
    refine set_getD_eq_self tfi.s_inodes i TFS_INODE_FREE TFS_INODE_FREE
      ?_ hilen
    rw [getD_default_irrel tfi.s_inodes i TFS_INODE_FREE TFS_INODE_INUSE
      hilen]
    exact hslot
  have hifr : tfi.s_ifree - 1 + 1 = tfi.s_ifree := by omega
  have hevict : toyfs_evict_inode u1 ino = tfi := by
    rw [toyfs_evict_inode_spec u1 ino hnl, hu1, hino, hblk]
    simp only [hsinodes, List.range_zero, List.foldl_nil, Nat.add_zero, hifr]
  refine ⟨hbmap, hcnt, hsame, hcnt2, hevict, ?_⟩
  rw [hevict, hi]

def c5ino : TfsInode :=
  { i_ino := 1, i_mode := 0, i_nlink := 0, i_uid := 0, i_gid := 0,
    i_size := 0, i_blocks := 0,
    i_addr := List.replicate TFS_MAX_INO_BLKS TFS_INVALID, i_link := "" }

theorem claim_C5_alloc_free_alloc_witness :
    ((toyfs_bfree (toyfs_balloc freshTfi).2 3).bmap = freshTfi.bmap ∧
     (toyfs_bfree (toyfs_balloc freshTfi).2 3).s_bfree + 1 =
       freshTfi.s_bfree ∧
     (toyfs_balloc (toyfs_bfree (toyfs_balloc freshTfi).2 3)).1 = .ok 3 ∧
     (toyfs_balloc (toyfs_bfree (toyfs_balloc freshTfi).2 3)).2.s_bfree + 2 =
       freshTfi.s_bfree ∧
     toyfs_evict_inode (toyfs_ialloc freshTfi).2 c5ino = freshTfi ∧
     toyfs_ialloc (toyfs_evict_inode (toyfs_ialloc freshTfi).2 c5ino) =
       (.ok 1, (toyfs_ialloc freshTfi).2)) :=
  claim_C5_alloc_free_alloc freshTfi c5ino 3 1
    (toyfs_balloc freshTfi).2 (toyfs_ialloc freshTfi).2
    (by decide) (by decide) (by decide) rfl rfl rfl

/-! ## Directory entry engine (toyfs_dir.c) -/

/-- `sizeof(struct tfs_dentry)` = 4 + 28 bytes. -/
def TFS_DENTRY_SIZE : Nat := 32

/-- The data blocks of a directory, in address order: the C loops run
`for (i = 0; i < tino->i_blocks; i++)` over `tino->i_addr[i]`. -/
def dirAddrs (dir : TfsInode) : List Nat :=
  (List.range dir.i_blocks).map (fun k => dir.i_addr.getD k 0)

/-- The inner loop of `toyfs_find_entry`: skip free slots, return the
inode number of the first exact name match. -/
def findInBlock (es : List TfsDentry) (name : String) : Option Nat :=
  (es.find? (fun e => !(e.d_ino == TFS_INVALID) && e.d_name == name)).map
    (fun e => e.d_ino)

/-- The outer loop of `toyfs_find_entry` over the directory blocks. -/
def findEntryBlocks (store : Store) (name : String) : List Nat → Option Nat
  | [] => none
  | b :: rest =>
    match findInBlock (store b).asDir name with
    | some ino => some ino
    | none => findEntryBlocks store name rest

/-- `toyfs_find_entry()`: linear scan of all directory blocks;
`-ENOENT` when the name is nowhere.  (`sb_bread` failure, `-ENOMEM`,
cannot occur in the model.) -/
def toyfs_find_entry (store : Store) (dir : TfsInode) (name : String) :
    TfsRes Nat :=
  match findEntryBlocks store name (dirAddrs dir) with
  | some ino => .ok ino
  | none => .error .ENOENT

/-- Result of scanning one block in `toyfs_dir_add_entry`: either an
existing-name match at slot `j` (scan ends), or the scan continues,
possibly having saved a first free slot. -/
inductive BScan where
  | found (j : Nat)
  | cont (newTgt : Option Nat)
  deriving DecidableEq, Repr

/-- The inner slot loop of `toyfs_dir_add_entry`.  `hasTgt` tells
whether `idx_tgt`/`bh_tgt` are already set (possibly from an earlier
block).  Faithful details: the slot at which the free target is first
saved is `continue`d past without the name comparison, and slots
visited while a target is already saved are name-compared even when
free. -/
def scanBlk (name : String) : Bool → List TfsDentry → Nat → BScan
  | _, [], _ => .cont none
  | hasTgt, e :: rest, j =>
    if !hasTgt && (e.d_ino == TFS_INVALID) then
      match scanBlk name true rest (j+1) with
      | .found k => .found k
      | .cont _ => .cont (some j)
    else if e.d_name == name then .found j
    else scanBlk name hasTgt rest (j+1)

/-- Result of the whole directory scan of `toyfs_dir_add_entry`. -/
inductive DScan where
  | found (b j : Nat)
  | cont (tgt : Option (Nat × Nat))
  deriving DecidableEq, Repr

/-- The outer block loop of `toyfs_dir_add_entry`, carrying the saved
target slot (block number, slot index) across blocks. -/
def scanDir (store : Store) (name : String) :
    List Nat → Option (Nat × Nat) → DScan
  | [], tgt => .cont tgt
  | b :: rest, tgt =>
    match scanBlk name tgt.isSome (store b).asDir 0 with
    | .found j => .found b j
    | .cont newTgt =>
      scanDir store name rest
        (match tgt with
         | some t => some t
         | none => newTgt.map (fun j => (b, j)))

/-- Write dentry slot `j` of block `b`: `d_ino = inum` and
`strcpy(d_name, name)`. -/
def writeEntry (store : Store) (b j inum : Nat) (name : String) : Store :=
  fun x => if x = b then .dirB ((store b).asDir.set j ⟨inum, name⟩)
           else store x

/-- `toyfs_dir_add_entry()`: one pass looking simultaneously for the
first free slot and an existing same-name entry; a name match wins and
is overwritten in place, otherwise the saved free slot is used; with
neither, `-ENOSPC`.  On success the parent's size grows by one entry
record and its link count is incremented. -/
def toyfs_dir_add_entry (store : Store) (parent : TfsInode) (name : String)
    (inum : Nat) : TfsRes Unit × TfsInode × Store :=
  match scanDir store name (dirAddrs parent) none with
  | .found b j =>
    (.ok (), { parent with i_size := parent.i_size + TFS_DENTRY_SIZE,
                           i_nlink := parent.i_nlink + 1 },
     writeEntry store b j inum name)
  | .cont (some (b, j)) =>
    (.ok (), { parent with i_size := parent.i_size + TFS_DENTRY_SIZE,
                           i_nlink := parent.i_nlink + 1 },
     writeEntry store b j inum name)
  | .cont none => (.error .ENOSPC, parent, store)

/-- The slot loop of `toyfs_dir_del_entry`: first slot that is in use
and name-matches. -/
def delScanBlk (name : String) : List TfsDentry → Nat → Option Nat
  | [], _ => none
  | e :: rest, j =>
    if (e.d_ino == TFS_INVALID) || !(e.d_name == name) then
      delScanBlk name rest (j+1)
    else some j

/-- The block loop of `toyfs_dir_del_entry`. -/
def delScanDir (store : Store) (name : String) :
    List Nat → Option (Nat × Nat)
  | [] => none
  | b :: rest =>
    match delScanBlk name (store b).asDir 0 with
    | some j => some (b, j)
    | none => delScanDir store name rest

/-- `toyfs_dir_del_entry()`: clear the matching slot (`d_ino =
TFS_INVALID`, name emptied), decrement the directory's link count;
`-ENOENT` when absent.  The directory size is not changed. -/
def toyfs_dir_del_entry (store : Store) (parent : TfsInode)
    (name : String) : TfsRes Unit × TfsInode × Store :=
  match delScanDir store name (dirAddrs parent) with
  | some (b, j) =>
    (.ok (), { parent with i_nlink := parent.i_nlink - 1 },
     writeEntry store b j TFS_INVALID "")
  | none => (.error .ENOENT, parent, store)

/-! ## Characterizing the directory scans -/

/-- Index of the first element satisfying `p`. -/
def firstIdxP (p : α → Bool) : List α → Option Nat
  | [] => none
  | x :: xs => if p x then some 0 else (firstIdxP p xs).map (· + 1)

theorem firstIdxP_none_iff (p : α → Bool) (l : List α) :
    firstIdxP p l = none ↔ ∀ x ∈ l, p x = false := by
  induction l with
  | nil => simp [firstIdxP]
  | cons x xs ih =>
    by_cases hp : p x
    · simp [firstIdxP, hp]
    · simp [firstIdxP, hp, ih]

theorem firstIdxP_some_spec (p : α → Bool) (l : List α) (k : Nat) (d : α)
    (h : firstIdxP p l = some k) :
    k < l.length ∧ p (l.getD k d) = true ∧
    ∀ x ∈ l.take k, p x = false := by
  induction l generalizing k with
  | nil => simp [firstIdxP] at h
  | cons x xs ih =>
    by_cases hp : p x
    · simp [firstIdxP, hp] at h
      subst h
      simp [hp]
    · simp [firstIdxP, hp] at h
      obtain ⟨k', hk', hkk⟩ := h
      subst hkk
      obtain ⟨h1, h2, h3⟩ := ih k' hk'
      refine ⟨by simpa using h1, by simpa using h2, ?_⟩
      intro y hy
      simp only [List.take_succ_cons, List.mem_cons] at hy
      rcases hy with hy | hy
      · subst hy; simpa using hp
      · exact h3 y hy

/-- No free slot of the block carries `name` as its stale string (true
of every state the engine itself produces: freed slots get their name
cleared, fresh directory blocks are modelled with empty names). -/
abbrev NoStale (name : String) (es : List TfsDentry) : Prop :=
  ∀ e ∈ es, e.d_ino = TFS_INVALID → e.d_name ≠ name

theorem scanBlk_char (name : String) (es : List TfsDentry)
    (hasTgt : Bool) (j : Nat) (h1 : NoStale name es) :
    scanBlk name hasTgt es j =
      match firstIdxP (fun e => e.d_name == name) es with
      | some k => .found (j + k)
      | none => .cont (if hasTgt then none
                       else (firstIdxP (fun e => e.d_ino == TFS_INVALID)
                              es).map (fun f => j + f)) := by
  induction es generalizing hasTgt j with
  | nil => cases hasTgt <;> simp [scanBlk, firstIdxP]
  | cons e rest ih =>
    have h1e : e.d_ino = TFS_INVALID → e.d_name ≠ name :=
      h1 e (by simp)
    have h1rest : NoStale name rest := fun x hx => h1 x (by simp [hx])
    by_cases hfree : e.d_ino = TFS_INVALID
    · -- head slot is free; its stale name cannot match
      have hnm : (e.d_name == name) = false := by
        simp [h1e hfree]
      cases hasTgt with
      | false =>
        -- target acquired here, name check skipped, recurse with target set
        simp only [scanBlk, Bool.not_false, Bool.true_and, hfree,
          beq_self_eq_true, if_pos]
        rw [ih true (j+1) h1rest]
        simp only [firstIdxP, hnm, Bool.false_eq_true, if_neg, hfree,
          beq_self_eq_true, if_pos]
        cases hm : firstIdxP (fun e => e.d_name == name) rest with
        | some k => simp [hm]; omega
        | none => simp [hm]
      | true =>
        -- target already saved: the free slot is name-compared (stale
        -- name, cannot match by NoStale)
        simp only [scanBlk, Bool.not_true, Bool.false_and,
          Bool.false_eq_true, if_neg, hnm, if_false]
        rw [ih true (j+1) h1rest]
        simp only [firstIdxP, hnm, Bool.false_eq_true, if_neg]
        cases hm : firstIdxP (fun e => e.d_name == name) rest with
        | some k => simp [hm]; omega
        | none => simp [hm]
    · -- head slot is live
      have hfree' : (e.d_ino == TFS_INVALID) = false := by
        simpa using hfree
      by_cases hnm : e.d_name = name
      · -- live name match: found immediately
        cases hasTgt <;>
          simp [scanBlk, hfree', hnm, firstIdxP]
      · have hnm' : (e.d_name == name) = false := by simpa using hnm
        cases hasTgt with
        | false =>
          simp only [scanBlk, hfree', Bool.not_false, Bool.true_and,
            Bool.false_eq_true, if_neg, hnm', if_false]
          rw [ih false (j+1) h1rest]
          simp only [firstIdxP, hnm', Bool.false_eq_true, if_neg, hfree',
            if_false]
          cases hm : firstIdxP (fun e => e.d_name == name) rest with
          | some k => simp [hm]; omega
          | none =>
            simp only [hm]
            cases hf : firstIdxP (fun e => e.d_ino == TFS_INVALID) rest with
            | some f => simp [hf]; omega
            | none => simp [hf]
        | true =>
          simp only [scanBlk, hfree', Bool.not_true, Bool.false_and,
            Bool.false_eq_true, if_neg, hnm', if_false]
          rw [ih true (j+1) h1rest]
          simp only [firstIdxP, hnm', Bool.false_eq_true, if_neg]
          cases hm : firstIdxP (fun e => e.d_name == name) rest with
          | some k => simp [hm]; omega
          | none => simp [hm]

/-- First block (with in-block index) on which `f` hits. -/
def firstDirHit (f : Nat → Option Nat) : List Nat → Option (Nat × Nat)
  | [] => none
  | b :: rest =>
    match f b with
    | some j => some (b, j)
    | none => firstDirHit f rest

/-- First (block, slot) holding an entry whose name matches. -/
def firstDirMatch (store : Store) (name : String) (bs : List Nat) :
    Option (Nat × Nat) :=
  firstDirHit (fun b => firstIdxP (fun e => e.d_name == name)
    (store b).asDir) bs

/-- First (block, slot) holding a free entry. -/
def firstDirFree (store : Store) (bs : List Nat) : Option (Nat × Nat) :=
  firstDirHit (fun b => firstIdxP (fun e => e.d_ino == TFS_INVALID)
    (store b).asDir) bs

theorem scanDir_char (store : Store) (name : String) (bs : List Nat)
    (tgt : Option (Nat × Nat))
    (h1 : ∀ b ∈ bs, NoStale name (store b).asDir) :
    scanDir store name bs tgt =
      match firstDirMatch store name bs with
      | some (b, j) => .found b j
      | none => .cont (match tgt with
                       | some t => some t
                       | none => firstDirFree store bs) := by
  induction bs generalizing tgt with
  | nil =>
    cases tgt <;> simp [scanDir, firstDirMatch, firstDirFree, firstDirHit]
  | cons b rest ih =>
    have h1b : NoStale name (store b).asDir := h1 b (by simp)
    have h1rest : ∀ b' ∈ rest, NoStale name (store b').asDir :=
      fun b' hb' => h1 b' (by simp [hb'])
    simp only [scanDir]
    rw [scanBlk_char name (store b).asDir tgt.isSome 0 h1b]
    cases hm : firstIdxP (fun e => e.d_name == name) (store b).asDir with
    | some k =>
      simp only [hm, firstDirMatch, firstDirFree, firstDirHit]
      simp
    | none =>
      simp only [hm]
      rw [ih _ h1rest]
      simp only [firstDirMatch, firstDirFree, firstDirHit, hm]
      cases tgt with
      | some t => simp
      | none =>
        simp only [Option.isSome_none, Bool.false_eq_true, if_neg,
          if_false]
        cases hf : firstIdxP (fun e => e.d_ino == TFS_INVALID)
            (store b).asDir with
        | some f =>
          cases hmr : firstDirHit (fun b => firstIdxP
              (fun e => e.d_name == name) (store b).asDir) rest with
          | some p => simp [hf, hmr]
          | none => simp [hf, hmr]
        | none =>
          cases hmr : firstDirHit (fun b => firstIdxP
              (fun e => e.d_name == name) (store b).asDir) rest with
          | some p => simp [hf, hmr]
          | none => simp [hf, hmr]

/-! ## Counting live entries and free slots of a directory -/

/-- Live entries of one block whose name matches. -/
def blockLive (name : String) (es : List TfsDentry) : Nat :=
  es.countP (fun e => !(e.d_ino == TFS_INVALID) && e.d_name == name)

/-- Live entries of the whole directory whose name matches. -/
def liveCount (store : Store) (dir : TfsInode) (name : String) : Nat :=
  ((dirAddrs dir).map (fun b => blockLive name (store b).asDir)).sum

/-- Free slots of one block. -/
def blockFree (es : List TfsDentry) : Nat :=
  es.countP (fun e => e.d_ino == TFS_INVALID)

/-- Free slots of the whole directory. -/
def freeSlotCount (store : Store) (dir : TfsInode) : Nat :=
  ((dirAddrs dir).map (fun b => blockFree (store b).asDir)).sum

theorem getD_mem (l : List α) (j : Nat) (d : α) (h : j < l.length) :
    l.getD j d ∈ l := by
  induction l generalizing j with
  | nil => simp at h
  | cons x xs ih =>
    cases j with
    | zero => simp
    | succ n =>
      simp only [List.getD_cons_succ, List.mem_cons]
      exact Or.inr (ih n (by simpa using h))

theorem find?_set_of_none_before (p : α → Bool) (l : List α) (j : Nat)
    (a : α) (hj : j < l.length) (hpa : p a = true)
    (hbef : ∀ x ∈ l.take j, p x = false) :
    (l.set j a).find? p = some a := by
  induction l generalizing j with
  | nil => simp at hj
  | cons x xs ih =>
    cases j with
    | zero => simp [List.find?_cons, hpa]
    | succ n =>
      have hx : p x = false := hbef x (by simp)
      simp only [List.set_cons_succ, List.find?_cons, hx]
      exact ih n (by simpa using hj)
        (fun y hy => hbef y (by simp [hy]))

theorem writeEntry_other (store : Store) (b j inum : Nat) (name : String)
    (b' : Nat) (h : b' ≠ b) : writeEntry store b j inum name b' = store b' := by
  simp [writeEntry, h]

theorem writeEntry_same (store : Store) (b j inum : Nat) (name : String) :
    writeEntry store b j inum name b = .dirB ((store b).asDir.set j
      ⟨inum, name⟩) := by
  simp [writeEntry]

theorem firstDirHit_some_split (f : Nat → Option Nat) (bs : List Nat)
    (b j : Nat) (h : firstDirHit f bs = some (b, j)) :
    ∃ pre post, bs = pre ++ b :: post ∧ f b = some j ∧
      ∀ b' ∈ pre, f b' = none := by
  induction bs with
  | nil => simp [firstDirHit] at h
  | cons x rest ih =>
    simp only [firstDirHit] at h
    cases hf : f x with
    | some k =>
      rw [hf] at h
      simp only [Option.some.injEq, Prod.mk.injEq] at h
      obtain ⟨hb, hj⟩ := h
      subst hb; subst hj
      exact ⟨[], rest, by simp, hf, by simp⟩
    | none =>
      rw [hf] at h
      obtain ⟨pre, post, hsplit, hfb, hpre⟩ := ih h
      refine ⟨x :: pre, post, by simp [hsplit], hfb, ?_⟩
      intro b' hb'
      rcases List.mem_cons.mp hb' with hb' | hb'
      · subst hb'; exact hf
      · exact hpre b' hb'

theorem firstDirHit_none_iff (f : Nat → Option Nat) (bs : List Nat) :
    firstDirHit f bs = none ↔ ∀ b ∈ bs, f b = none := by
  induction bs with
  | nil => simp [firstDirHit]
  | cons x rest ih =>
    simp only [firstDirHit]
    cases hf : f x with
    | some k => simp [hf]
    | none => simp [hf, ih]

theorem findInBlock_none_of_nomatch (es : List TfsDentry) (name : String)
    (h : ∀ e ∈ es, (e.d_name == name) = false) :
    findInBlock es name = none := by
  unfold findInBlock
  rw [List.find?_eq_none.mpr]
  · rfl
  · intro e he
    simp [h e he]

theorem findInBlock_set_hit (es : List TfsDentry) (name : String)
    (j inum : Nat) (hj : j < es.length) (hinum : inum ≠ TFS_INVALID)
    (hbef : ∀ e ∈ es.take j, (e.d_name == name) = false) :
    findInBlock (es.set j ⟨inum, name⟩) name = some inum := by
  unfold findInBlock
  rw [find?_set_of_none_before _ es j _ hj
    (by simp [hinum]) (fun e he => by simp [hbef e he])]
  rfl

theorem findEntryBlocks_append_none (store : Store) (name : String)
    (pre rest : List Nat)
    (h : ∀ b ∈ pre, findInBlock (store b).asDir name = none) :
    findEntryBlocks store name (pre ++ rest) =
      findEntryBlocks store name rest := by
  induction pre with
  | nil => simp
  | cons x xs ih =>
    simp only [List.cons_append, findEntryBlocks, h x (by simp)]
    exact ih (fun b hb => h b (by simp [hb]))

/-- The entry written by a successful insert is live and matches. -/
theorem liveMatch_new (name : String) (inum : Nat)
    (hinum : inum ≠ TFS_INVALID) :
    (fun e => !(e.d_ino == TFS_INVALID) && e.d_name == name)
      (⟨inum, name⟩ : TfsDentry) = true := by
  simp [hinum]

theorem countP_set_same (p : α → Bool) (l : List α) (i : Nat) (a d : α)
    (h : i < l.length) (hsame : p (l.getD i d) = p a) :
    (l.set i a).countP p = l.countP p := by
  have hc := countP_set p l i a d h
  rw [hsame] at hc
  omega

theorem countP_set_incr (p : α → Bool) (l : List α) (i : Nat) (a d : α)
    (h : i < l.length) (hold : p (l.getD i d) = false)
    (hnew : p a = true) :
    (l.set i a).countP p = l.countP p + 1 := by
  have hc := countP_set p l i a d h
  rw [hold, hnew] at hc
  simp at hc
  omega

/-- Effects of an insert that overwrote the first name match: lookup
finds the new inode number, the number of live matching entries and
the number of free slots are unchanged. -/
theorem insert_match_case (store : Store) (name : String) (inum : Nat)
    (bs : List Nat) (hnd : bs.Nodup)
    (h1 : ∀ b ∈ bs, NoStale name (store b).asDir)
    (hinum : inum ≠ TFS_INVALID) (b j : Nat)
    (hm : firstDirMatch store name bs = some (b, j)) :
    findEntryBlocks (writeEntry store b j inum name) name bs = some inum ∧
    (bs.map (fun x => blockLive name ((writeEntry store b j inum name)
        x).asDir)).sum =
      (bs.map (fun x => blockLive name (store x).asDir)).sum ∧
    0 < (bs.map (fun x => blockLive name (store x).asDir)).sum ∧
    (bs.map (fun x => blockFree ((writeEntry store b j inum name)
        x).asDir)).sum =
      (bs.map (fun x => blockFree (store x).asDir)).sum := by
  obtain ⟨pre, post, hsplit, hfb, hpre⟩ :=
    firstDirHit_some_split _ bs b j hm
  subst hsplit
  obtain ⟨hndpre, hndrest, hdisj⟩ := List.nodup_append.mp hnd
  have hbnotpre : ∀ x ∈ pre, x ≠ b := fun x hx hxb => by
    subst hxb; exact hdisj hx (by simp)
  have hbnotpost : b ∉ post := (List.nodup_cons.mp hndrest).1
  have hstpre : ∀ x ∈ pre, writeEntry store b j inum name x = store x :=
    fun x hx => writeEntry_other store b j inum name x (hbnotpre x hx)
  have hstpost : ∀ x ∈ post, writeEntry store b j inum name x = store x :=
    fun x hx => writeEntry_other store b j inum name x (fun hxb => by
      subst hxb; exact hbnotpost hx)
  obtain ⟨hjlen, hjmatch, hjbef⟩ :=
    firstIdxP_some_spec (fun e => e.d_name == name) (store b).asDir j
      ⟨TFS_INVALID, ""⟩ hfb
  simp only at hjmatch
  have hold_live :
      (((store b).asDir.getD j ⟨TFS_INVALID, ""⟩).d_ino == TFS_INVALID)
        = false := by
    by_cases hfree :
        ((store b).asDir.getD j ⟨TFS_INVALID, ""⟩).d_ino = TFS_INVALID
    · have hne := h1 b (by simp) _
        (getD_mem (store b).asDir j ⟨TFS_INVALID, ""⟩ hjlen) hfree
      rw [beq_iff_eq] at hjmatch
      exact absurd hjmatch hne
    · simpa using hfree
  have hwb : ((writeEntry store b j inum name) b).asDir =
      (store b).asDir.set j ⟨inum, name⟩ := by
    rw [writeEntry_same]; rfl
  have hinum' : ((inum : Nat) == TFS_INVALID) = false := by
    simpa using hinum
  have hlive_b :
      blockLive name ((writeEntry store b j inum name) b).asDir =
        blockLive name (store b).asDir := by
    rw [hwb]
    unfold blockLive
    refine countP_set_same _ _ j _ ⟨TFS_INVALID, ""⟩ hjlen ?_
    show (!(((store b).asDir.getD j ⟨TFS_INVALID, ""⟩).d_ino == TFS_INVALID)
        && (((store b).asDir.getD j ⟨TFS_INVALID, ""⟩).d_name == name)) =
      (!((inum : Nat) == TFS_INVALID) && ((name == name) : Bool))
    rw [hold_live, hjmatch, hinum']
    simp
  have hfree_b :
      blockFree ((writeEntry store b j inum name) b).asDir =
        blockFree (store b).asDir := by
    rw [hwb]
    unfold blockFree
    refine countP_set_same _ _ j _ ⟨TFS_INVALID, ""⟩ hjlen ?_
    show (((store b).asDir.getD j ⟨TFS_INVALID, ""⟩).d_ino == TFS_INVALID) =
      ((inum : Nat) == TFS_INVALID)
    rw [hold_live, hinum']
  have hpos : 0 < blockLive name (store b).asDir := by
    rw [blockLive, List.countP_pos_iff]
    refine ⟨(store b).asDir.getD j ⟨TFS_INVALID, ""⟩,
      getD_mem _ _ _ hjlen, ?_⟩
    show (!(((store b).asDir.getD j ⟨TFS_INVALID, ""⟩).d_ino == TFS_INVALID)
        && (((store b).asDir.getD j ⟨TFS_INVALID, ""⟩).d_name == name)) = true
    rw [hold_live, hjmatch]
    rfl
  have hmap_live_pre : pre.map (fun x => blockLive name
      ((writeEntry store b j inum name) x).asDir) =
      pre.map (fun x => blockLive name (store x).asDir) :=
    List.map_congr_left (fun x hx => by rw [hstpre x hx])
  have hmap_live_post : post.map (fun x => blockLive name
      ((writeEntry store b j inum name) x).asDir) =
      post.map (fun x => blockLive name (store x).asDir) :=
    List.map_congr_left (fun x hx => by rw [hstpost x hx])
  have hmap_free_pre : pre.map (fun x => blockFree
      ((writeEntry store b j inum name) x).asDir) =
      pre.map (fun x => blockFree (store x).asDir) :=
    List.map_congr_left (fun x hx => by rw [hstpre x hx])
  have hmap_free_post : post.map (fun x => blockFree
      ((writeEntry store b j inum name) x).asDir) =
      post.map (fun x => blockFree (store x).asDir) :=
    List.map_congr_left (fun x hx => by rw [hstpost x hx])
  refine ⟨?_, ?_, ?_, ?_⟩
  · rw [findEntryBlocks_append_none _ _ pre _ ?_]
    · simp only [findEntryBlocks, hwb]
      rw [findInBlock_set_hit _ _ _ _ hjlen hinum hjbef]
    · intro x hx
      rw [hstpre x hx]
      exact findInBlock_none_of_nomatch _ _
        (by simpa [firstIdxP_none_iff] using hpre x hx)
  · simp only [List.map_append, List.map_cons, List.sum_append,
      List.sum_cons, hmap_live_pre, hmap_live_post, hlive_b]
  · simp only [List.map_append, List.map_cons, List.sum_append,
      List.sum_cons]
    omega
  · simp only [List.map_append, List.map_cons, List.sum_append,
      List.sum_cons, hmap_free_pre, hmap_free_post, hfree_b]

/-- Effects of an insert that used the first free slot (no name match
anywhere): lookup finds the new inode number; the directory had no
live matching entry and now has exactly one. -/
theorem insert_free_case (store : Store) (name : String) (inum : Nat)
    (bs : List Nat) (hnd : bs.Nodup) (hinum : inum ≠ TFS_INVALID)
    (hnm : firstDirMatch store name bs = none) (b j : Nat)
    (hf : firstDirFree store bs = some (b, j)) :
    findEntryBlocks (writeEntry store b j inum name) name bs = some inum ∧
    (bs.map (fun x => blockLive name ((writeEntry store b j inum name)
        x).asDir)).sum = 1 ∧
    (bs.map (fun x => blockLive name (store x).asDir)).sum = 0 := by
  have hnomatch : ∀ x ∈ bs, ∀ e ∈ (store x).asDir,
      (e.d_name == name) = false := by
    intro x hx
    have := (firstDirHit_none_iff _ bs).mp hnm x hx
    exact (firstIdxP_none_iff _ _).mp this
  obtain ⟨pre, post, hsplit, hfb, _⟩ := firstDirHit_some_split _ bs b j hf
  have hbbs : b ∈ bs := by rw [hsplit]; simp
  subst hsplit
  obtain ⟨hndpre, hndrest, hdisj⟩ := List.nodup_append.mp hnd
  have hbnotpre : ∀ x ∈ pre, x ≠ b := fun x hx hxb => by
    subst hxb; exact hdisj hx (by simp)
  have hbnotpost : b ∉ post := (List.nodup_cons.mp hndrest).1
  have hstpre : ∀ x ∈ pre, writeEntry store b j inum name x = store x :=
    fun x hx => writeEntry_other store b j inum name x (hbnotpre x hx)
  have hstpost : ∀ x ∈ post, writeEntry store b j inum name x = store x :=
    fun x hx => writeEntry_other store b j inum name x (fun hxb => by
      subst hxb; exact hbnotpost hx)
  obtain ⟨hjlen, _, _⟩ :=
    firstIdxP_some_spec (fun e => e.d_ino == TFS_INVALID) (store b).asDir j
      ⟨TFS_INVALID, ""⟩ hfb
  have hwb : ((writeEntry store b j inum name) b).asDir =
      (store b).asDir.set j ⟨inum, name⟩ := by
    rw [writeEntry_same]; rfl
  have hblock_zero : ∀ x ∈ pre ++ b :: post,
      blockLive name (store x).asDir = 0 := by
    intro x hx
    rw [blockLive, List.countP_eq_zero]
    intro e he
    simp [hnomatch x hx e he]
  have hlive_b :
      blockLive name ((writeEntry store b j inum name) b).asDir = 1 := by
    rw [hwb]
    unfold blockLive
    rw [countP_set_incr _ _ j _ ⟨TFS_INVALID, ""⟩ hjlen ?_ ?_]
    · rw [← blockLive]
      rw [hblock_zero b hbbs]
    · show (!(((store b).asDir.getD j ⟨TFS_INVALID, ""⟩).d_ino ==
          TFS_INVALID) &&
        (((store b).asDir.getD j ⟨TFS_INVALID, ""⟩).d_name == name)) = false
      rw [hnomatch b hbbs _ (getD_mem _ _ _ hjlen)]
      simp
    · show (!((inum : Nat) == TFS_INVALID) && ((name == name) : Bool)) = true
      simp [hinum]
  refine ⟨?_, ?_, ?_⟩
  · rw [findEntryBlocks_append_none _ _ pre _ ?_]
    · simp only [findEntryBlocks, hwb]
      rw [findInBlock_set_hit _ _ _ _ hjlen hinum ?_]
      intro e he
      exact hnomatch b hbbs e (List.take_subset _ _ he)
    · intro x hx
      rw [hstpre x hx]
      exact findInBlock_none_of_nomatch _ _ (hnomatch x (by simp [hx]))
  · simp only [List.map_append, List.map_cons, List.sum_append,
      List.sum_cons, hlive_b]
    have hpre0 : (pre.map (fun x => blockLive name
        ((writeEntry store b j inum name) x).asDir)).sum = 0 := by
      apply List.sum_eq_zero
      intro n hn
      obtain ⟨x, hx, hxn⟩ := List.mem_map.mp hn
      rw [← hxn, hstpre x hx]
      exact hblock_zero x (by simp [hx])
    have hpost0 : (post.map (fun x => blockLive name
        ((writeEntry store b j inum name) x).asDir)).sum = 0 := by
      apply List.sum_eq_zero
      intro n hn
      obtain ⟨x, hx, hxn⟩ := List.mem_map.mp hn
      rw [← hxn, hstpost x hx]
      exact hblock_zero x (by simp [hx])
    omega
  · apply List.sum_eq_zero
    intro n hn
    obtain ⟨x, hx, hxn⟩ := List.mem_map.mp hn
    rw [← hxn]
    exact hblock_zero x hx

theorem dirAddrs_update (dir : TfsInode) (sz nl : Nat) :
    dirAddrs { dir with i_size := sz, i_nlink := nl } = dirAddrs dir := rfl

/-- `toyfs_dir_add_entry`, rephrased through the scan
characterization: a name match anywhere wins (and is overwritten in
place), else the first free slot is used, else `-ENOSPC`. -/
theorem add_entry_eq_match (store : Store) (dir : TfsInode)
    (name : String) (inum : Nat)
    (hwf : ∀ b ∈ dirAddrs dir, NoStale name (store b).asDir) :
    toyfs_dir_add_entry store dir name inum =
      match firstDirMatch store name (dirAddrs dir) with
      | some (b, j) =>
        (.ok (), { dir with i_size := dir.i_size + TFS_DENTRY_SIZE,
                            i_nlink := dir.i_nlink + 1 },
         writeEntry store b j inum name)
      | none =>
        match firstDirFree store (dirAddrs dir) with
        | some (b, j) =>
          (.ok (), { dir with i_size := dir.i_size + TFS_DENTRY_SIZE,
                              i_nlink := dir.i_nlink + 1 },
           writeEntry store b j inum name)
        | none => (.error .ENOSPC, dir, store) := by
  unfold toyfs_dir_add_entry
  rw [scanDir_char store name (dirAddrs dir) none hwf]
  cases hm : firstDirMatch store name (dirAddrs dir) with
  | some p => obtain ⟨b, j⟩ := p; rfl
  | none =>
    cases hf : firstDirFree store (dirAddrs dir) with
    | some p => obtain ⟨b, j⟩ := p; rfl
    | none => rfl

/-- C4: on a well-formed directory (its block list has no duplicate
addresses and no free slot carries the inserted name as a stale
string), a successful insert of `(name → inum)` followed by a lookup
of `name` returns `inum`, also when the name previously existed bound
to a different inode number; the number of live entries for `name`
afterwards is one when there was none and unchanged otherwise (the
existing entry is overwritten in place, no duplicate is created), and
when a match existed the insert consumes no free slot — the match won
over any earlier-seen free slot. -/
theorem claim_C4_insert_then_lookup (store : Store) (dir : TfsInode)
    (name : String) (inum : Nat)
    (hwf : ∀ b ∈ dirAddrs dir, NoStale name (store b).asDir)
    (hnd : (dirAddrs dir).Nodup) (hinum : inum ≠ TFS_INVALID)
    (_hlen : name.length < TFS_MAX_NLEN)
    (hok : (toyfs_dir_add_entry store dir name inum).1 = .ok ()) :
    toyfs_find_entry (toyfs_dir_add_entry store dir name inum).2.2
      (toyfs_dir_add_entry store dir name inum).2.1 name = .ok inum ∧
    liveCount (toyfs_dir_add_entry store dir name inum).2.2
        (toyfs_dir_add_entry store dir name inum).2.1 name =
      (if liveCount store dir name = 0 then 1
       else liveCount store dir name) ∧
    (liveCount store dir name ≠ 0 →
      freeSlotCount (toyfs_dir_add_entry store dir name inum).2.2
          (toyfs_dir_add_entry store dir name inum).2.1 =
        freeSlotCount store dir) := by
  cases hm : firstDirMatch store name (dirAddrs dir) with
  | some p =>
    obtain ⟨b, j⟩ := p
    have heq : toyfs_dir_add_entry store dir name inum =
        (.ok (), { dir with i_size := dir.i_size + TFS_DENTRY_SIZE,
                            i_nlink := dir.i_nlink + 1 },
         writeEntry store b j inum name) := by
      rw [add_entry_eq_match store dir name inum hwf, hm]
    obtain ⟨hfind, hlive, hpos, hfree⟩ :=
      insert_match_case store name inum (dirAddrs dir) hnd hwf hinum b j hm
    simp only [heq, toyfs_find_entry, liveCount, freeSlotCount,
      dirAddrs_update]
    rw [hfind]
    refine ⟨rfl, ?_, fun _ => hfree⟩
    rw [hlive, if_neg (by omega)]
  | none =>
    cases hf : firstDirFree store (dirAddrs dir) with
    | some p =>
      obtain ⟨b, j⟩ := p
      have heq : toyfs_dir_add_entry store dir name inum =
          (.ok (), { dir with i_size := dir.i_size + TFS_DENTRY_SIZE,
                              i_nlink := dir.i_nlink + 1 },
           writeEntry store b j inum name) := by
        rw [add_entry_eq_match store dir name inum hwf, hm, hf]
      obtain ⟨hfind, hlive1, hlive0⟩ :=
        insert_free_case store name inum (dirAddrs dir) hnd hinum hm b j hf
      simp only [heq, toyfs_find_entry, liveCount, freeSlotCount,
        dirAddrs_update]
      rw [hfind]
      refine ⟨rfl, ?_,
        fun hc => absurd hlive0 (by simpa [liveCount] using hc)⟩
      rw [hlive1, hlive0]
      simp
    | none =>
      have heq : toyfs_dir_add_entry store dir name inum =
          (.error .ENOSPC, dir, store) := by
        rw [add_entry_eq_match store dir name inum hwf, hm, hf]
      rw [heq] at hok
      simp at hok

/-- A directory block: entry 0 holds `("a", 2)`, all other slots
free. -/
def c4blk : List TfsDentry :=
  (List.replicate TFS_ENTRIES_PER_BLOCK
    (⟨TFS_INVALID, ""⟩ : TfsDentry)).set 0 ⟨2, "a"⟩

def c4dir : TfsInode :=
  { i_ino := 0, i_mode := 0o40755, i_nlink := 3, i_uid := 0, i_gid := 0,
    i_size := 96, i_blocks := 1,
    i_addr := (List.replicate TFS_MAX_INO_BLKS TFS_INVALID).set 0 3,
    i_link := "" }

def c4store : Store := fun b => if b = 3 then .dirB c4blk else .dirB []

theorem claim_C4_insert_then_lookup_witness :
    toyfs_find_entry (toyfs_dir_add_entry c4store c4dir "a" 5).2.2
      (toyfs_dir_add_entry c4store c4dir "a" 5).2.1 "a" = .ok 5 ∧
    liveCount (toyfs_dir_add_entry c4store c4dir "a" 5).2.2
        (toyfs_dir_add_entry c4store c4dir "a" 5).2.1 "a" =
      (if liveCount c4store c4dir "a" = 0 then 1
       else liveCount c4store c4dir "a") ∧
    (liveCount c4store c4dir "a" ≠ 0 →
      freeSlotCount (toyfs_dir_add_entry c4store c4dir "a" 5).2.2
          (toyfs_dir_add_entry c4store c4dir "a" 5).2.1 =
        freeSlotCount c4store c4dir) :=
  claim_C4_insert_then_lookup c4store c4dir "a" 5 (by decide) (by decide)
    (by decide) (by decide) (by decide)

/-! ## Claim C9 -/

/-- C9: every successful `toyfs_dir_add_entry` adds one 32-byte entry
record to the parent's size field and one to its link count — also
when it overwrites an existing same-name entry or refills a freed
slot, so the size field does not track the number of live entries. -/
theorem claim_C9_insert_grows_size (store : Store) (dir : TfsInode)
    (name : String) (inum : Nat)
    (hok : (toyfs_dir_add_entry store dir name inum).1 = .ok ()) :
    (toyfs_dir_add_entry store dir name inum).2.1.i_size =
      dir.i_size + TFS_DENTRY_SIZE ∧
    (toyfs_dir_add_entry store dir name inum).2.1.i_nlink =
      dir.i_nlink + 1 := by
  unfold toyfs_dir_add_entry at hok ⊢
  cases hs : scanDir store name (dirAddrs dir) none with
  | found b j => simp [hs]
  | cont t =>
    cases t with
    | some p => obtain ⟨b, j⟩ := p; simp [hs]
    | none => rw [hs] at hok; simp at hok

theorem claim_C9_insert_grows_size_witness :
    (toyfs_dir_add_entry c4store c4dir "a" 7).2.1.i_size =
      c4dir.i_size + TFS_DENTRY_SIZE ∧
    (toyfs_dir_add_entry c4store c4dir "a" 7).2.1.i_nlink =
      c4dir.i_nlink + 1 :=
  claim_C9_insert_grows_size c4store c4dir "a" 7 (by decide)

/-! ## Unlink and rmdir (toyfs_iops.c) -/

/-- `toyfs_unlink()`: look the name up, remove the directory entry
(which decrements the parent's link count), then decrement the
target's link count. -/
def toyfs_unlink (store : Store) (parent target : TfsInode)
    (name : String) : TfsRes Unit × TfsInode × TfsInode × Store :=
  match toyfs_find_entry store parent name with
  | .error e => (.error e, parent, target, store)
  | .ok _ =>
    match toyfs_dir_del_entry store parent name with
    | (.error e, parent', store') => (.error e, parent', target, store')
    | (.ok _, parent', store') =>
      (.ok (), parent', { target with i_nlink := target.i_nlink - 1 },
       store')

/-- `toyfs_rmdir()`: refuse with `-ENOTEMPTY` while the target
directory's link count exceeds 2; otherwise unlink it and drop one
more link (the removed directory's "." self reference). -/
def toyfs_rmdir (store : Store) (parent target : TfsInode)
    (name : String) : TfsRes Unit × TfsInode × TfsInode × Store :=
  if target.i_nlink > 2 then (.error .ENOTEMPTY, parent, target, store)
  else
    match toyfs_unlink store parent target name with
    | (.ok _, parent', target', store') =>
      (.ok (), parent', { target' with i_nlink := target'.i_nlink - 1 },
       store')
    | (.error e, parent', target', store') =>
      (.error e, parent', target', store')

theorem delScanBlk_char (name : String) (es : List TfsDentry) (j : Nat) :
    delScanBlk name es j =
      (firstIdxP (fun e => !(e.d_ino == TFS_INVALID) && e.d_name == name)
        es).map (fun k => j + k) := by
  induction es generalizing j with
  | nil => simp [delScanBlk, firstIdxP]
  | cons e rest ih =>
    simp only [delScanBlk, firstIdxP]
    by_cases hfree : e.d_ino = TFS_INVALID
    · have h1 : (e.d_ino == TFS_INVALID) = true := by simpa using hfree
      simp only [h1, Bool.true_or, if_pos, Bool.not_true, Bool.false_and,
        Bool.false_eq_true, if_neg, if_false]
      rw [ih]
      cases hm : firstIdxP
          (fun e => !(e.d_ino == TFS_INVALID) && e.d_name == name) rest with
      | some k => simp; omega
      | none => simp
    · have h1 : (e.d_ino == TFS_INVALID) = false := by simpa using hfree
      by_cases hnm : e.d_name = name
      · have h2 : (e.d_name == name) = true := by simpa using hnm
        simp [h1, h2]
      · have h2 : (e.d_name == name) = false := by simpa using hnm
        simp only [h1, h2, Bool.not_false, Bool.false_or, Bool.not_true,
          Bool.true_and, Bool.false_eq_true, if_neg, if_pos, if_false]
        rw [ih]
        cases hm : firstIdxP
            (fun e => !(e.d_ino == TFS_INVALID) && e.d_name == name)
            rest with
        | some k => simp; omega
        | none => simp

theorem delScanDir_char (store : Store) (name : String) (bs : List Nat) :
    delScanDir store name bs =
      firstDirHit (fun b => firstIdxP
        (fun e => !(e.d_ino == TFS_INVALID) && e.d_name == name)
        (store b).asDir) bs := by
  induction bs with
  | nil => simp [delScanDir, firstDirHit]
  | cons b rest ih =>
    simp only [delScanDir, firstDirHit, delScanBlk_char]
    cases hm : firstIdxP
        (fun e => !(e.d_ino == TFS_INVALID) && e.d_name == name)
        (store b).asDir with
    | some k => simp
    | none => simpa using ih

theorem findInBlock_none_of_noLive (es : List TfsDentry) (name : String)
    (h : ∀ e ∈ es,
      (!(e.d_ino == TFS_INVALID) && e.d_name == name) = false) :
    findInBlock es name = none := by
  unfold findInBlock
  rw [List.find?_eq_none.mpr]
  · rfl
  · intro e he
    simp only [h e he]
    exact fun hc => by simp at hc

theorem countP_set_decr (p : α → Bool) (l : List α) (i : Nat) (a d : α)
    (h : i < l.length) (hold : p (l.getD i d) = true)
    (hnew : p a = false) :
    (l.set i a).countP p + 1 = l.countP p := by
  have hc := countP_set p l i a d h
  rw [hold, hnew] at hc
  simp at hc
  omega

theorem findEntryBlocks_none_of_all (store : Store) (name : String)
    (bs : List Nat)
    (h : ∀ b ∈ bs, findInBlock (store b).asDir name = none) :
    findEntryBlocks store name bs = none := by
  induction bs with
  | nil => rfl
  | cons b rest ih =>
    simp only [findEntryBlocks, h b (by simp)]
    exact ih (fun x hx => h x (by simp [hx]))

theorem find_entry_error_eq (store : Store) (dir : TfsInode)
    (name : String) (e : TfsErr)
    (h : toyfs_find_entry store dir name = .error e) : e = .ENOENT := by
  unfold toyfs_find_entry at h
  cases hm : findEntryBlocks store name (dirAddrs dir) with
  | some v => rw [hm] at h; simp at h
  | none => rw [hm] at h; simpa using h.symm

theorem dirAddrs_update_nlink (dir : TfsInode) (nl : Nat) :
    dirAddrs { dir with i_nlink := nl } = dirAddrs dir := rfl

/-- `toyfs_dir_del_entry`, rephrased: it clears the first in-use slot
whose name matches, decrementing the parent's link count; `-ENOENT`
when no such slot exists. -/
theorem del_entry_eq (store : Store) (parent : TfsInode) (name : String) :
    toyfs_dir_del_entry store parent name =
      match firstDirHit (fun b => firstIdxP
          (fun e => !(e.d_ino == TFS_INVALID) && e.d_name == name)
          (store b).asDir) (dirAddrs parent) with
      | some (b, j) =>
        (.ok (), { parent with i_nlink := parent.i_nlink - 1 },
         writeEntry store b j TFS_INVALID "")
      | none => (.error .ENOENT, parent, store) := by
  unfold toyfs_dir_del_entry
  rw [delScanDir_char]

/-! ## Claim C10 -/

/-- C10: `toyfs_rmdir` returns `-ENOTEMPTY` precisely when the target
directory's link count exceeds 2; on success (for an empty directory,
link count 2, with the entry present and unique) it removes the entry
from the parent, decrements the parent's link count by one and the
target's link count by exactly two. -/
theorem claim_C10_rmdir_semantics (store : Store)
    (parent target : TfsInode) (name : String)
    (hnd : (dirAddrs parent).Nodup)
    (huniq : liveCount store parent name ≤ 1)
    (hp : 0 < parent.i_nlink) :
    ((toyfs_rmdir store parent target name).1 = .error .ENOTEMPTY ↔
      2 < target.i_nlink) ∧
    (target.i_nlink = 2 →
      (toyfs_rmdir store parent target name).1 = .ok () →
      ((toyfs_rmdir store parent target name).2.1.i_nlink + 1 =
          parent.i_nlink ∧
       (toyfs_rmdir store parent target name).2.2.1.i_nlink + 2 =
          target.i_nlink ∧
       toyfs_find_entry (toyfs_rmdir store parent target name).2.2.2
         (toyfs_rmdir store parent target name).2.1 name =
           .error .ENOENT)) := by
  by_cases hgt : 2 < target.i_nlink
  · have hr : toyfs_rmdir store parent target name =
        (.error .ENOTEMPTY, parent, target, store) := by
      unfold toyfs_rmdir
      rw [if_pos hgt]
    rw [hr]
    exact ⟨⟨fun _ => hgt, fun _ => rfl⟩,
      fun hnl2 _ => absurd hnl2 (by omega)⟩
  · cases hfe : toyfs_find_entry store parent name with
    | error e =>
      have he := find_entry_error_eq store parent name e hfe
      subst he
      have hr : toyfs_rmdir store parent target name =
          (.error .ENOENT, parent, target, store) := by
        unfold toyfs_rmdir toyfs_unlink
        rw [if_neg hgt, hfe]
      rw [hr]
      refine ⟨⟨fun hc => absurd hc (by simp), fun hc => absurd hc hgt⟩,
        fun _ hok => absurd hok (by simp)⟩
    | ok v =>
      cases hd : firstDirHit (fun b => firstIdxP
          (fun e => !(e.d_ino == TFS_INVALID) && e.d_name == name)
          (store b).asDir) (dirAddrs parent) with
      | none =>
        have hdel : toyfs_dir_del_entry store parent name =
            (.error .ENOENT, parent, store) := by
          rw [del_entry_eq, hd]
        have hr : toyfs_rmdir store parent target name =
            (.error .ENOENT, parent, target, store) := by
          unfold toyfs_rmdir toyfs_unlink
          rw [if_neg hgt, hfe, hdel]
        rw [hr]
        refine ⟨⟨fun hc => absurd hc (by simp), fun hc => absurd hc hgt⟩,
          fun _ hok => absurd hok (by simp)⟩
      | some p =>
        obtain ⟨b, j⟩ := p
        have hdel : toyfs_dir_del_entry store parent name =
            (.ok (), { parent with i_nlink := parent.i_nlink - 1 },
             writeEntry store b j TFS_INVALID "") := by
          rw [del_entry_eq, hd]
        have hr : toyfs_rmdir store parent target name =
            (.ok (), { parent with i_nlink := parent.i_nlink - 1 },
             { target with i_nlink := target.i_nlink - 1 - 1 },
             writeEntry store b j TFS_INVALID "") := by
          unfold toyfs_rmdir toyfs_unlink
          rw [if_neg hgt, hfe, hdel]
        rw [hr]
        refine ⟨⟨fun hc => absurd hc (by simp), fun hc => absurd hc hgt⟩,
          fun hnl2 _ => ⟨by simp; omega, by simp; omega, ?_⟩⟩
        -- the entry is gone: no block still holds a live match
        obtain ⟨pre, post, hsplit, hfb, _⟩ :=
          firstDirHit_some_split _ _ b j hd
        obtain ⟨hjlen, hjhit, _⟩ := firstIdxP_some_spec
          (fun e => !(e.d_ino == TFS_INVALID) && e.d_name == name)
          (store b).asDir j ⟨TFS_INVALID, ""⟩ hfb
        have hposb : 0 < blockLive name (store b).asDir := by
          rw [blockLive, List.countP_pos_iff]
          exact ⟨(store b).asDir.getD j ⟨TFS_INVALID, ""⟩,
            getD_mem _ _ _ hjlen, hjhit⟩
        have hsum : (pre.map (fun x =>
              blockLive name (store x).asDir)).sum +
            (blockLive name (store b).asDir +
             (post.map (fun x => blockLive name (store x).asDir)).sum) ≤
              1 := by
          have h2 := huniq
          rw [liveCount, hsplit] at h2
          simpa [List.map_append, List.sum_append] using h2
        have hpre0 : (pre.map (fun x =>
            blockLive name (store x).asDir)).sum = 0 := by omega
        have hpost0 : (post.map (fun x =>
            blockLive name (store x).asDir)).sum = 0 := by omega
        have hb1 : blockLive name (store b).asDir = 1 := by omega
        rw [hsplit] at hnd
        obtain ⟨hndpre, hndrest, hdisj⟩ := List.nodup_append.mp hnd
        have hbnotpre : ∀ x ∈ pre, x ≠ b := fun x hx hxb => by
          subst hxb; exact hdisj hx (by simp)
        have hbnotpost : b ∉ post := (List.nodup_cons.mp hndrest).1
        have hzero : ∀ x, x ∈ pre ∨ x ∈ post →
            blockLive name (store x).asDir = 0 := by
          intro x hx
          rcases hx with hx | hx
          · have := List.single_le_sum
              (fun (n : Nat) _ => Nat.zero_le n)
              (blockLive name (store x).asDir)
              (List.mem_map_of_mem
                (fun x => blockLive name (store x).asDir) hx)
            omega
          · have := List.single_le_sum
              (fun (n : Nat) _ => Nat.zero_le n)
              (blockLive name (store x).asDir)
              (List.mem_map_of_mem
                (fun x => blockLive name (store x).asDir) hx)
            omega
        have hwb : ((writeEntry store b j TFS_INVALID "") b).asDir =
            (store b).asDir.set j ⟨TFS_INVALID, ""⟩ := by
          rw [writeEntry_same]; rfl
        have hnone : ∀ x ∈ dirAddrs parent,
            findInBlock ((writeEntry store b j TFS_INVALID "") x).asDir
              name = none := by
          intro x hx
          rw [hsplit] at hx
          rcases List.mem_append.mp hx with hx | hx
          · rw [writeEntry_other _ _ _ _ _ _ (hbnotpre x hx)]
            apply findInBlock_none_of_noLive
            intro e he
            have := hzero x (Or.inl hx)
            rw [blockLive, List.countP_eq_zero] at this
            exact Bool.eq_false_iff.mpr (this e he)
          · rcases List.mem_cons.mp hx with hx | hx
            · subst hx
              rw [hwb]
              apply findInBlock_none_of_noLive
              intro e he
              have hdecr := countP_set_decr
                (fun e => !(e.d_ino == TFS_INVALID) && e.d_name == name)
                (store x).asDir j ⟨TFS_INVALID, ""⟩ ⟨TFS_INVALID, ""⟩
                hjlen hjhit (by simp)
              rw [blockLive] at hb1
              have hz :
                  ((store x).asDir.set j
                    (⟨TFS_INVALID, ""⟩ : TfsDentry)).countP
                  (fun e => !(e.d_ino == TFS_INVALID) &&
                    e.d_name == name) = 0 := by omega
              rw [List.countP_eq_zero] at hz
              exact Bool.eq_false_iff.mpr (hz e he)
            · rw [writeEntry_other _ _ _ _ _ _
                (fun hxb => hbnotpost (by rw [← hxb]; exact hx))]
              apply findInBlock_none_of_noLive
              intro e he
              have := hzero x (Or.inr hx)
              rw [blockLive, List.countP_eq_zero] at this
              exact Bool.eq_false_iff.mpr (this e he)
        unfold toyfs_find_entry
        rw [dirAddrs_update_nlink,
          findEntryBlocks_none_of_all _ _ _ hnone]

def c10blk : List TfsDentry :=
  (((List.replicate TFS_ENTRIES_PER_BLOCK
      (⟨TFS_INVALID, ""⟩ : TfsDentry)).set 0 ⟨0, "."⟩).set 1
      ⟨0, ".."⟩).set 2 ⟨1, "sub"⟩

def c10parent : TfsInode :=
  { i_ino := 0, i_mode := 0o40755, i_nlink := 3, i_uid := 0, i_gid := 0,
    i_size := 96, i_blocks := 1,
    i_addr := (List.replicate TFS_MAX_INO_BLKS TFS_INVALID).set 0 3,
    i_link := "" }

def c10target : TfsInode :=
  { i_ino := 1, i_mode := 0o40755, i_nlink := 2, i_uid := 0, i_gid := 0,
    i_size := 64, i_blocks := 1,
    i_addr := (List.replicate TFS_MAX_INO_BLKS TFS_INVALID).set 0 4,
    i_link := "" }

def c10store : Store := fun b => if b = 3 then .dirB c10blk else .dirB []

theorem claim_C10_rmdir_semantics_witness :
    ((toyfs_rmdir c10store c10parent c10target "sub").1 =
        .error .ENOTEMPTY ↔ 2 < c10target.i_nlink) ∧
    (c10target.i_nlink = 2 →
      (toyfs_rmdir c10store c10parent c10target "sub").1 = .ok () →
      ((toyfs_rmdir c10store c10parent c10target "sub").2.1.i_nlink + 1 =
          c10parent.i_nlink ∧
       (toyfs_rmdir c10store c10parent c10target "sub").2.2.1.i_nlink + 2 =
          c10target.i_nlink ∧
       toyfs_find_entry
         (toyfs_rmdir c10store c10parent c10target "sub").2.2.2
         (toyfs_rmdir c10store c10parent c10target "sub").2.1 "sub" =
           .error .ENOENT)) :=
  claim_C10_rmdir_semantics c10store c10parent c10target "sub"
    (by decide) (by decide) (by decide)

/-! ## Inode write-back and read (toyfs_inode.c / toyfs_super.c) -/

/-- `toyfs_write_inode()`: serialize the in-memory fields (mode, link
count, uid, gid, size, block count, the 7 direct block addresses) into
the inode's slot of the pinned inode-table block.  The timestamps of
the on-disk record are not written.  (The `WB_SYNC_ALL` branch only
syncs the buffer; storage is modelled as reliable, so the `-EIO` path
does not arise.) -/
def toyfs_write_inode (itable : List TfsDinode) (ino : TfsInode) :
    List TfsDinode :=
  let d0 := itable.getD ino.i_ino ⟨0, 0, 0, 0, 0, 0, 0, 0, 0, []⟩
  itable.set ino.i_ino
    { d0 with
      i_mode := ino.i_mode,
      i_nlink := ino.i_nlink,
      i_uid := ino.i_uid,
      i_gid := ino.i_gid,
      i_size := ino.i_size,
      i_blocks := ino.i_blocks,
      i_addr := (List.range TFS_MAX_INO_BLKS).map
        (fun k => ino.i_addr.getD k 0) }

/-- Modelled from the spec: the body of `toyfs_read_inode` is compiled
out of this assignment tree (`src/toyfs_inode.c` returns
`ERR_PTR(-EOPNOTSUPP)` under `#if 0`, only the skeleton remains), so
the decode step is taken from spec §4.4: `read(inum)` is
InvalidArgument when `inum` is out of the table range, and otherwise
decodes the on-disk record of slot `inum` into an in-memory inode. -/
def toyfs_read_inode (itable : List TfsDinode) (inum : Nat) :
    TfsRes TfsInode :=
  if TFS_INODE_COUNT ≤ inum then .error .EINVAL
  else
    let d := itable.getD inum ⟨0, 0, 0, 0, 0, 0, 0, 0, 0, []⟩
    .ok { i_ino := inum, i_mode := d.i_mode, i_nlink := d.i_nlink,
          i_uid := d.i_uid, i_gid := d.i_gid, i_size := d.i_size,
          i_blocks := d.i_blocks, i_addr := d.i_addr, i_link := "" }

theorem map_getD_range (l : List α) (d : α) :
    (List.range l.length).map (fun k => l.getD k d) = l := by
  apply List.ext_getElem
  · simp
  · intro i h1 h2
    simp only [List.getElem_map, List.getElem_range]
    rw [List.getD_eq_getElem?_getD, List.getElem?_eq_getElem h2]
    rfl

/-! ## Claim C2 -/

/-- C2: serializing an inode with `toyfs_write_inode` and then reading
the same inode number back from the table (the read decode is
spec-modelled, the assignment tree compiles it out) yields identical
mode, uid, gid, size, link count, and direct block list. -/
theorem claim_C2_writeback_read_roundtrip (itable : List TfsDinode)
    (ino : TfsInode) (hino : ino.i_ino < TFS_INODE_COUNT)
    (hlen : itable.length = TFS_INODE_COUNT)
    (haddr : ino.i_addr.length = TFS_MAX_INO_BLKS) :
    ∃ r, toyfs_read_inode (toyfs_write_inode itable ino) ino.i_ino =
        .ok r ∧
      r.i_mode = ino.i_mode ∧ r.i_uid = ino.i_uid ∧
      r.i_gid = ino.i_gid ∧ r.i_size = ino.i_size ∧
      r.i_nlink = ino.i_nlink ∧ r.i_addr = ino.i_addr := by
  unfold toyfs_read_inode toyfs_write_inode
  rw [if_neg (by omega)]
  rw [getD_set_self _ _ _ _ (by omega)]
  refine ⟨_, rfl, rfl, rfl, rfl, rfl, rfl, ?_⟩
  show (List.range TFS_MAX_INO_BLKS).map (fun k => ino.i_addr.getD k 0) =
    ino.i_addr
  rw [← haddr, map_getD_range]

def c2ino : TfsInode :=
  { i_ino := 5, i_mode := 0o100644, i_nlink := 2, i_uid := 1000,
    i_gid := 100, i_size := 4096, i_blocks := 2,
    i_addr := [7, 9, TFS_INVALID, TFS_INVALID, TFS_INVALID, TFS_INVALID,
               TFS_INVALID],
    i_link := "" }

def c2itable : List TfsDinode :=
  List.replicate TFS_INODE_COUNT ⟨0, 0, 0, 0, 0, 0, 0, 0, 0, []⟩

theorem claim_C2_writeback_read_roundtrip_witness :
    ∃ r, toyfs_read_inode (toyfs_write_inode c2itable c2ino)
        c2ino.i_ino = .ok r ∧
      r.i_mode = c2ino.i_mode ∧ r.i_uid = c2ino.i_uid ∧
      r.i_gid = c2ino.i_gid ∧ r.i_size = c2ino.i_size ∧
      r.i_nlink = c2ino.i_nlink ∧ r.i_addr = c2ino.i_addr :=
  claim_C2_writeback_read_roundtrip c2itable c2ino (by decide) (by decide)
    (by decide)

/-! ## Block mapping (toyfs_get_block in toyfs_balloc.c) -/

/-- `toyfs_get_block()`.  The C declares `unsigned long fsblock` and
assigns it the `int` return of `toyfs_balloc`; a negative errno
becomes `2^64 - 28` by the C conversion, the guard `fsblock < 0` is an
unsigned comparison and never holds, and the value is then truncated
to the 32-bit `i_addr` slot.  The last component is the block mapped
into the buffer head (`map_bh`), `none` for a read hole. -/
def toyfs_get_block (tfi : TfsFsInfo) (tino : TfsInode) (block : Nat)
    (create : Bool) : TfsRes Unit × TfsInode × TfsFsInfo × Option Nat :=
  let fsblock0 := tino.i_addr.getD block 0
  if fsblock0 ≠ TFS_INVALID then (.ok (), tino, tfi, some fsblock0)
  else if !create then (.ok (), tino, tfi, none)
  else if TFS_MAX_INO_BLKS ≤ block then (.error .EFBIG, tino, tfi, none)
  else
    match toyfs_balloc tfi with
    | (.ok blk, tfi') =>
      (.ok (), { tino with i_addr := tino.i_addr.set block blk,
                           i_blocks := tino.i_blocks + 1 }, tfi', some blk)
    | (.error .ENOSPC, tfi') =>
      -- int -ENOSPC assigned to unsigned long: 2^64 - 28
      let fsblock := 2^64 - 28
      if fsblock < 0 then
        -- dead code: an unsigned value is never `< 0`, the error is
        -- not returned to the caller
        (.error .ENOSPC, tino, tfi', none)
      else
        (.ok (), { tino with
                   i_addr := tino.i_addr.set block (fsblock % 2^32),
                   i_blocks := tino.i_blocks + 1 }, tfi', some fsblock)
    | (.error e, tfi') => (.error e, tino, tfi', none)

/-! ## Claim C7 -/

def c7tfi : TfsFsInfo :=
  { s_bfree := 0, s_ifree := 0,
    s_inodes := List.replicate TFS_INODE_COUNT TFS_INODE_INUSE,
    bmap := List.replicate TFS_MAX_BLKS true }

def c7ino : TfsInode :=
  { i_ino := 2, i_mode := 0o100644, i_nlink := 1, i_uid := 0, i_gid := 0,
    i_size := 0, i_blocks := 0,
    i_addr := List.replicate TFS_MAX_INO_BLKS TFS_INVALID, i_link := "" }

/-- C7 fails on the code: writing through `toyfs_get_block` with
`s_bfree = 0` does NOT return the allocator's `-ENOSPC` — the unsigned
`fsblock` swallows the negative errno, the call reports success, the
direct-block slot is overwritten with the truncated errno pattern
`0xFFFFFFE4` and the block count is incremented. -/
theorem claim_C7_get_block_swallows_enospc :
    c7tfi.s_bfree = 0 ∧
    c7ino.i_addr.getD 0 0 = TFS_INVALID ∧
    (toyfs_get_block c7tfi c7ino 0 true).1 = .ok () ∧
    (toyfs_get_block c7tfi c7ino 0 true).2.1.i_blocks =
      c7ino.i_blocks + 1 ∧
    (toyfs_get_block c7tfi c7ino 0 true).2.1.i_addr.getD 0 0 =
      0xFFFFFFE4 := by
  refine ⟨rfl, by decide, by decide, by decide, by decide⟩

/-! ## Inode creation (toyfs_new_inode in toyfs_inode.c) -/

def S_IFMT : Nat := 0o170000
def S_IFREG : Nat := 0o100000
def S_IFDIR : Nat := 0o40000
def S_IFLNK : Nat := 0o120000

def S_ISREG (m : Nat) : Bool := m &&& S_IFMT == S_IFREG
def S_ISDIR (m : Nat) : Bool := m &&& S_IFMT == S_IFDIR
def S_ISLNK (m : Nat) : Bool := m &&& S_IFMT == S_IFLNK

/-- The fresh directory block written by the directory branch of
`toyfs_new_inode`: every slot's `d_ino` is set to the free sentinel
(the C leaves the name bytes of slots 2..63 as whatever the block held
before; bytes the model has no dentry record of are taken as zero,
i.e. empty names), then "." and ".." are written. -/
def initDirBlock (prev : TfsBlock) (selfIno parentIno : Nat) :
    List TfsDentry :=
  let es := ((prev.asDir ++ List.replicate TFS_ENTRIES_PER_BLOCK
      (⟨TFS_INVALID, ""⟩ : TfsDentry)).take TFS_ENTRIES_PER_BLOCK).map
    (fun e => { e with d_ino := TFS_INVALID })
  (es.set 0 ⟨selfIno, "."⟩).set 1 ⟨parentIno, ".."⟩

/-- The common tail of `toyfs_new_inode`: insert the new name into the
parent directory; on failure the allocated inode and blocks stay
referenced by nothing (the known leak, see spec §4.4 step 4). -/
def toyfs_new_inode_finish (tfi : TfsFsInfo) (store : Store)
    (parent : TfsInode) (name : String) (ip : TfsInode) :
    TfsRes TfsInode × TfsInode × TfsFsInfo × Store :=
  match toyfs_dir_add_entry store parent name ip.i_ino with
  | (.error e, parent', store') => (.error e, parent', tfi, store')
  | (.ok _, parent', store') => (.ok ip, parent', tfi, store')

/-- `toyfs_new_inode()`: allocate an inode number (any failure is
reported as `-ENOSPC`), initialize the direct-block slots to the
sentinel, do the type-specific setup (regular: empty; directory: one
data block holding "." and "..", size two records, extra link;
symlink: validate `strnlen(target, TFS_MAX_NLEN) < TFS_MAX_NLEN` else
`-ENAMETOOLONG`, one data block holding the NUL-terminated target,
size = target length), then add the parent directory entry. -/
def toyfs_new_inode (tfi : TfsFsInfo) (store : Store) (parent : TfsInode)
    (name : String) (mode : Nat) (lnk_target : String) :
    TfsRes TfsInode × TfsInode × TfsFsInfo × Store :=
  match toyfs_ialloc tfi with
  | (.error .EBUG, tfi1) => (.error .EBUG, parent, tfi1, store)
  | (.error _, tfi1) => (.error .ENOSPC, parent, tfi1, store)
  | (.ok inum, tfi1) =>
    let ip0 : TfsInode :=
      { i_ino := inum, i_mode := mode, i_nlink := 1, i_uid := 0,
        i_gid := 0, i_size := 0, i_blocks := 0,
        i_addr := List.replicate TFS_MAX_INO_BLKS TFS_INVALID,
        i_link := "" }
    if S_ISREG mode then
      toyfs_new_inode_finish tfi1 store parent name ip0
    else if S_ISDIR mode then
      match toyfs_balloc tfi1 with
      | (.error e, tfi2) => (.error e, parent, tfi2, store)
      | (.ok blk, tfi2) =>
        let store2 : Store := fun x =>
          if x = blk then .dirB (initDirBlock (store blk) inum parent.i_ino)
          else store x
        toyfs_new_inode_finish tfi2 store2 parent name
          { ip0 with i_blocks := 1, i_addr := ip0.i_addr.set 0 blk,
                     i_size := 2 * TFS_DENTRY_SIZE, i_nlink := 2 }
    else if S_ISLNK mode then
      let len := min lnk_target.length TFS_MAX_NLEN
      if TFS_MAX_NLEN ≤ len then (.error .ENAMETOOLONG, parent, tfi1, store)
      else
        match toyfs_balloc tfi1 with
        | (.error e, tfi2) => (.error e, parent, tfi2, store)
        | (.ok blk, tfi2) =>
          -- strncpy(dst, lnk_target, len + 1): the whole string and
          -- its NUL terminator
          let store2 : Store := fun x =>
            if x = blk then .lnkB lnk_target else store x
          toyfs_new_inode_finish tfi2 store2 parent name
            { ip0 with i_blocks := 1, i_addr := ip0.i_addr.set 0 blk,
                       i_size := len, i_link := lnk_target }
    else (.error .EBUG, parent, tfi1, store)

theorem scanDir_found_mem (store : Store) (name : String) (bs : List Nat)
    (tgt : Option (Nat × Nat)) (b j : Nat)
    (h : scanDir store name bs tgt = .found b j) : b ∈ bs := by
  induction bs generalizing tgt with
  | nil => simp [scanDir] at h
  | cons x rest ih =>
    simp only [scanDir] at h
    cases hs : scanBlk name tgt.isSome (store x).asDir 0 with
    | found k =>
      rw [hs] at h
      injection h with h1 _
      simp [h1]
    | cont newTgt =>
      rw [hs] at h
      exact List.mem_cons.mpr (Or.inr (ih _ h))

theorem scanDir_cont_some (store : Store) (name : String) (bs : List Nat)
    (tgt : Option (Nat × Nat)) (b j : Nat)
    (h : scanDir store name bs tgt = .cont (some (b, j))) :
    tgt = some (b, j) ∨ b ∈ bs := by
  induction bs generalizing tgt with
  | nil =>
    simp only [scanDir] at h
    injection h with h1
    exact Or.inl h1
  | cons x rest ih =>
    simp only [scanDir] at h
    cases hs : scanBlk name tgt.isSome (store x).asDir 0 with
    | found k => rw [hs] at h; simp at h
    | cont newTgt =>
      rw [hs] at h
      have := ih _ h
      rcases this with hl | hr
      · cases tgt with
        | some t => exact Or.inl (by simpa using hl)
        | none =>
          cases newTgt with
          | none => simp at hl
          | some k =>
            simp only [Option.map_some] at hl
            injection hl with hl
            have hbx : x = b := congrArg Prod.fst hl
            exact Or.inr (by simp [← hbx])
      · exact Or.inr (by simp [hr])

/-- A successful insert writes through `writeEntry` at some block of
the directory's own block list. -/
theorem add_entry_ok_store (store : Store) (parent : TfsInode)
    (name : String) (inum : Nat)
    (hok : (toyfs_dir_add_entry store parent name inum).1 = .ok ()) :
    ∃ b j, b ∈ dirAddrs parent ∧
      (toyfs_dir_add_entry store parent name inum).2.2 =
        writeEntry store b j inum name := by
  unfold toyfs_dir_add_entry at hok ⊢
  cases hs : scanDir store name (dirAddrs parent) none with
  | found b j =>
    refine ⟨b, j, scanDir_found_mem store name _ none b j hs, ?_⟩
    simp [hs]
  | cont t =>
    cases t with
    | some p =>
      obtain ⟨b, j⟩ := p
      have hmem := scanDir_cont_some store name _ none b j hs
      simp only [reduceCtorEq, false_or] at hmem
      refine ⟨b, j, hmem, ?_⟩
      simp [hs]
    | none => rw [hs] at hok; simp at hok

/-! ## Claim C8 -/

/-- C8 amended: a symlink create fails with `-ENAMETOOLONG` exactly
when the target is not strictly shorter than `TFS_MAX_NLEN`;
otherwise, when the allocation and the parent insert succeed, one data
block is allocated, the target string (whole, with its terminator via
`strncpy(dst, target, len+1)`) is stored in it, the inode's block
count is 1 and its size equals the target length.  (For Scenario D's
target "targetname" that length is 10, not the 9 the spec states.) -/
theorem claim_C8_symlink_create (tfi : TfsFsInfo) (store : Store)
    (parent : TfsInode) (name target : String) (mode inum blk : Nat)
    (tfi1 tfi2 : TfsFsInfo)
    (hm : mode &&& S_IFMT = S_IFLNK)
    (hi : toyfs_ialloc tfi = (.ok inum, tfi1)) :
    (TFS_MAX_NLEN ≤ target.length →
      (toyfs_new_inode tfi store parent name mode target).1 =
        .error .ENAMETOOLONG) ∧
    (target.length < TFS_MAX_NLEN →
      toyfs_balloc tfi1 = (.ok blk, tfi2) →
      blk ∉ dirAddrs parent →
      (toyfs_dir_add_entry
          (fun x => if x = blk then TfsBlock.lnkB target else store x)
          parent name inum).1 = .ok () →
      ((toyfs_new_inode tfi store parent name mode target).1.map
          (fun ip => ip.i_size) = .ok target.length ∧
       (toyfs_new_inode tfi store parent name mode target).1.map
          (fun ip => ip.i_blocks) = .ok 1 ∧
       (toyfs_new_inode tfi store parent name mode target).1.map
          (fun ip => ip.i_addr.getD 0 0) = .ok blk ∧
       (toyfs_new_inode tfi store parent name mode target).2.2.2 blk =
          .lnkB target)) := by
  have hreg : S_ISREG mode = false := by
    unfold S_ISREG
    rw [hm]
    decide
  have hdir : S_ISDIR mode = false := by
    unfold S_ISDIR
    rw [hm]
    decide
  have hlnk : S_ISLNK mode = true := by
    unfold S_ISLNK
    rw [hm]
    decide
  constructor
  · intro hge
    have heq : toyfs_new_inode tfi store parent name mode target =
        (.error .ENAMETOOLONG, parent, tfi1, store) := by
      unfold toyfs_new_inode
      rw [hi]
      simp only [hreg, hdir, hlnk, Bool.false_eq_true, if_neg, if_false,
        if_true]
      rw [if_pos (by omega : TFS_MAX_NLEN ≤ min target.length TFS_MAX_NLEN)]
    rw [heq]
  · intro hlt hb hnotin hadd
    set store2 : Store :=
      (fun x => if x = blk then TfsBlock.lnkB target else store x)
      with hstore2
    set ip : TfsInode :=
      { i_ino := inum, i_mode := mode, i_nlink := 1, i_uid := 0,
        i_gid := 0, i_size := min target.length TFS_MAX_NLEN,
        i_blocks := 1,
        i_addr := (List.replicate TFS_MAX_INO_BLKS TFS_INVALID).set 0 blk,
        i_link := target } with hip
    have hpair : toyfs_dir_add_entry store2 parent name inum =
        ((.ok ()),
         (toyfs_dir_add_entry store2 parent name inum).2.1,
         (toyfs_dir_add_entry store2 parent name inum).2.2) := by
      rw [← hadd]
    have hfin : toyfs_new_inode_finish tfi2 store2 parent name ip =
        (.ok ip,
         (toyfs_dir_add_entry store2 parent name inum).2.1, tfi2,
         (toyfs_dir_add_entry store2 parent name inum).2.2) := by
      unfold toyfs_new_inode_finish
      have hino : ip.i_ino = inum := rfl
      rw [hino, hpair]
    have heq : toyfs_new_inode tfi store parent name mode target =
        (.ok ip,
         (toyfs_dir_add_entry store2 parent name inum).2.1, tfi2,
         (toyfs_dir_add_entry store2 parent name inum).2.2) := by
      rw [← hfin]
      unfold toyfs_new_inode
      rw [hi]
      simp only [hreg, hdir, hlnk, Bool.false_eq_true, if_neg, if_false,
        if_true]
      rw [if_neg (by omega : ¬ TFS_MAX_NLEN ≤ min target.length
        TFS_MAX_NLEN)]
      rw [hb]
    obtain ⟨b, j, hbmem, hstoreq⟩ :=
      add_entry_ok_store store2 parent name inum hadd
    have hmin : min target.length TFS_MAX_NLEN = target.length :=
      Nat.min_eq_left (by omega)
    have haddr0 : ip.i_addr.getD 0 0 = blk := by
      show ((List.replicate TFS_MAX_INO_BLKS TFS_INVALID).set 0
        blk).getD 0 0 = blk
      exact getD_set_self _ 0 blk 0 (by simp [TFS_MAX_INO_BLKS])
    refine ⟨?_, ?_, ?_, ?_⟩
    · rw [heq]
      show Except.ok ip.i_size = Except.ok target.length
      rw [hip]
      simpa using hmin
    · rw [heq]
      rfl
    · rw [heq]
      show Except.ok (ip.i_addr.getD 0 0) = Except.ok blk
      rw [haddr0]
    · rw [heq]
      show (toyfs_dir_add_entry store2 parent name inum).2.2 blk =
        .lnkB target
      rw [hstoreq]
      rw [writeEntry_other _ _ _ _ _ _
        (fun hc => hnotin (by rw [hc]; exact hbmem))]
      simp [hstore2]

/-- A fresh volume whose root directory (inode 0) occupies data
block 3. -/
def c8tfi : TfsFsInfo :=
  { s_bfree := 508, s_ifree := 31,
    s_inodes := (List.replicate TFS_INODE_COUNT TFS_INODE_FREE).set 0
      TFS_INODE_INUSE,
    bmap := ((((List.replicate TFS_MAX_BLKS false).set 0 true).set 1
      true).set 2 true).set 3 true }

def c8parent : TfsInode :=
  { i_ino := 0, i_mode := 0o40755, i_nlink := 2, i_uid := 0, i_gid := 0,
    i_size := 64, i_blocks := 1,
    i_addr := (List.replicate TFS_MAX_INO_BLKS TFS_INVALID).set 0 3,
    i_link := "" }

def c8blk : List TfsDentry :=
  ((List.replicate TFS_ENTRIES_PER_BLOCK
      (⟨TFS_INVALID, ""⟩ : TfsDentry)).set 0 ⟨0, "."⟩).set 1 ⟨0, ".."⟩

def c8store : Store := fun b => if b = 3 then .dirB c8blk else .dirB []

/-- C8's Scenario D instance is false on the code: the target
"targetname" has 10 characters, `strnlen` gives 10, and the created
symlink's size field is 10 — not 9 as the claim states. -/
theorem claim_C8_counterexample :
    ((toyfs_new_inode c8tfi c8store c8parent "lnk" 0o120777
        "targetname").1.map (fun ip => ip.i_size)) = .ok 10 ∧
    ((toyfs_new_inode c8tfi c8store c8parent "lnk" 0o120777
        "targetname").1.map (fun ip => ip.i_size)) ≠ .ok 9 := by
  refine ⟨by decide, by decide⟩

theorem claim_C8_symlink_create_witness :
    (TFS_MAX_NLEN ≤ ("targetname").length →
      (toyfs_new_inode c8tfi c8store c8parent "lnk" 0o120777
        "targetname").1 = .error .ENAMETOOLONG) ∧
    (("targetname").length < TFS_MAX_NLEN →
      toyfs_balloc (toyfs_ialloc c8tfi).2 =
        (.ok 4, (toyfs_balloc (toyfs_ialloc c8tfi).2).2) →
      4 ∉ dirAddrs c8parent →
      (toyfs_dir_add_entry
          (fun x => if x = 4 then TfsBlock.lnkB "targetname"
           else c8store x) c8parent "lnk" 1).1 = .ok () →
      ((toyfs_new_inode c8tfi c8store c8parent "lnk" 0o120777
          "targetname").1.map (fun ip => ip.i_size) =
            .ok ("targetname").length ∧
       (toyfs_new_inode c8tfi c8store c8parent "lnk" 0o120777
          "targetname").1.map (fun ip => ip.i_blocks) = .ok 1 ∧
       (toyfs_new_inode c8tfi c8store c8parent "lnk" 0o120777
          "targetname").1.map (fun ip => ip.i_addr.getD 0 0) = .ok 4 ∧
       (toyfs_new_inode c8tfi c8store c8parent "lnk" 0o120777
          "targetname").2.2.2 4 = .lnkB "targetname")) :=
  claim_C8_symlink_create c8tfi c8store c8parent "lnk" "targetname"
    0o120777 1 4 (toyfs_ialloc c8tfi).2
    (toyfs_balloc (toyfs_ialloc c8tfi).2).2 (by decide) (by decide)

/-! ## Claim C1: the free-count invariant over all reachable states

The volume state is the in-core superblock, the data-block store, and
the cache of live in-core inodes.  The exposed operations are modelled
as a step relation; `BUG()` (kernel halt) yields no successor state. -/

structure VState where
  tfi : TfsFsInfo
  store : Store
  inodes : List TfsInode

/-- One exposed operation, excluding the standalone `toyfs_bfree`
(see `StepO` for the claim's original operation list). -/
inductive Step : VState → VState → Prop
  | balloc (s : VState) (b : Nat) (tfi' : TfsFsInfo)
      (h : toyfs_balloc s.tfi = (.ok b, tfi')) :
      Step s ⟨tfi', s.store, s.inodes⟩
  | ialloc (s : VState) (i : Nat) (tfi' : TfsFsInfo)
      (h : toyfs_ialloc s.tfi = (.ok i, tfi')) :
      Step s ⟨tfi', s.store, s.inodes⟩
  | create (s : VState) (i : Nat) (h : i < s.inodes.length)
      (name : String) (mode : Nat) (target : String)
      (hnb : (toyfs_new_inode s.tfi s.store (s.inodes.get ⟨i, h⟩) name
        mode target).1 ≠ .error .EBUG) :
      Step s
        ⟨(toyfs_new_inode s.tfi s.store (s.inodes.get ⟨i, h⟩) name mode
            target).2.2.1,
         (toyfs_new_inode s.tfi s.store (s.inodes.get ⟨i, h⟩) name mode
            target).2.2.2,
         (s.inodes.set i (toyfs_new_inode s.tfi s.store
            (s.inodes.get ⟨i, h⟩) name mode target).2.1) ++
         (match (toyfs_new_inode s.tfi s.store (s.inodes.get ⟨i, h⟩)
             name mode target).1 with
          | .ok ip => [ip]
          | .error _ => [])⟩
  | dirAdd (s : VState) (i : Nat) (h : i < s.inodes.length)
      (name : String) (inum : Nat) :
      Step s
        ⟨s.tfi,
         (toyfs_dir_add_entry s.store (s.inodes.get ⟨i, h⟩) name
            inum).2.2,
         s.inodes.set i (toyfs_dir_add_entry s.store
            (s.inodes.get ⟨i, h⟩) name inum).2.1⟩
  | dirDel (s : VState) (i : Nat) (h : i < s.inodes.length)
      (name : String) :
      Step s
        ⟨s.tfi,
         (toyfs_dir_del_entry s.store (s.inodes.get ⟨i, h⟩) name).2.2,
         s.inodes.set i (toyfs_dir_del_entry s.store
            (s.inodes.get ⟨i, h⟩) name).2.1⟩
  | evict (s : VState) (i : Nat) (h : i < s.inodes.length) :
      Step s
        ⟨toyfs_evict_inode s.tfi (s.inodes.get ⟨i, h⟩), s.store,
         s.inodes.eraseIdx i⟩

/-- The claim's original operation list: `Step` plus the standalone
free-block operation `toyfs_bfree`. -/
inductive StepO : VState → VState → Prop
  | lift {s s' : VState} (h : Step s s') : StepO s s'
  | bfree (s : VState) (b : Nat) :
      StepO s ⟨toyfs_bfree s.tfi b, s.store, s.inodes⟩

def Reach : VState → VState → Prop := Relation.ReflTransGen Step

def ReachO : VState → VState → Prop := Relation.ReflTransGen StepO

/-- Ownership facts for one live in-core inode.  Its inode-table slot
is marked in use; its first `i_blocks` direct addresses are distinct,
in range, and marked in the bitmap. -/
structure InoWF (tfi : TfsFsInfo) (ino : TfsInode) : Prop where
  ino_lt : ino.i_ino < TFS_INODE_COUNT
  slot_inuse : tfi.s_inodes.getD ino.i_ino TFS_INODE_FREE =
    TFS_INODE_INUSE
  blocks_le : ino.i_blocks ≤ TFS_MAX_INO_BLKS
  addr_len : ino.i_addr.length = TFS_MAX_INO_BLKS
  addr_lt : ∀ k, k < ino.i_blocks → ino.i_addr.getD k 0 < TFS_MAX_BLKS
  addr_set : ∀ k, k < ino.i_blocks →
    bmapBit tfi.bmap (ino.i_addr.getD k 0) = true
  addr_nodup : ∀ k l, k < l → l < ino.i_blocks →
    ino.i_addr.getD k 0 ≠ ino.i_addr.getD l 0

/-- Two live inodes own disjoint block sets. -/
def InoDisj (a b : TfsInode) : Prop :=
  ∀ k l, k < a.i_blocks → l < b.i_blocks →
    a.i_addr.getD k 0 ≠ b.i_addr.getD l 0

/-- The volume invariant: the free counts track the bitmap and the
in-use table, and the live inode cache is consistent with both. -/
structure VWF (s : VState) : Prop where
  bmap_len : s.tfi.bmap.length = TFS_MAX_BLKS
  itab_len : s.tfi.s_inodes.length = TFS_INODE_COUNT
  bcount : s.tfi.s_bfree = countClear s.tfi.bmap
  icount : s.tfi.s_ifree = countFreeSlots s.tfi.s_inodes
  inosWF : ∀ ino ∈ s.inodes, InoWF s.tfi ino
  ino_distinct : s.inodes.Pairwise (fun a b => a.i_ino ≠ b.i_ino)
  blocks_disjoint : s.inodes.Pairwise InoDisj

/-! ### Helper lemmas for the invariant proof -/

theorem set_get_self (l : List α) (i : Nat) (h : i < l.length) :
    l.set i (l.get ⟨i, h⟩) = l := by
  induction l generalizing i with
  | nil => simp at h
  | cons x xs ih =>
    cases i with
    | zero => simp [List.get]
    | succ n =>
      simp only [List.set_cons_succ, List.get_cons_succ]
      rw [ih n (by simpa using h)]

theorem mem_set_decomp (l : List α) (i : Nat) (a x : α)
    (hx : x ∈ l.set i a) : x = a ∨ x ∈ l := by
  induction l generalizing i with
  | nil => simp at hx
  | cons y ys ih =>
    cases i with
    | zero =>
      rcases List.mem_cons.mp hx with h | h
      · exact Or.inl h
      · exact Or.inr (by simp [h])
    | succ n =>
      rcases List.mem_cons.mp hx with h | h
      · exact Or.inr (by simp [h])
      · rcases ih n h with h' | h'
        · exact Or.inl h'
        · exact Or.inr (by simp [h'])

theorem mem_eraseIdx_decomp (l : List α) (i : Nat) (x : α)
    (hx : x ∈ l.eraseIdx i) :
    ∃ j, ∃ hj : j < l.length, j ≠ i ∧ l.get ⟨j, hj⟩ = x := by
  induction l generalizing i with
  | nil => simp [List.eraseIdx] at hx
  | cons y ys ih =>
    cases i with
    | zero =>
      simp only [List.eraseIdx] at hx
      obtain ⟨j, hj, rfl⟩ := List.mem_iff_get.mp hx
      exact ⟨j + 1, by simp, by omega, rfl⟩
    | succ n =>
      simp only [List.eraseIdx] at hx
      rcases List.mem_cons.mp hx with h | h
      · exact ⟨0, by simp, by omega, by simp [List.get, h]⟩
      · obtain ⟨j, hj, hne, hget⟩ := ih n h
        exact ⟨j + 1, by simpa using hj, by omega, by simpa using hget⟩

theorem forall_mem_set (P : α → Prop) (l : List α) (i : Nat) (a : α)
    (hl : ∀ x ∈ l, P x) (ha : P a) : ∀ x ∈ l.set i a, P x := by
  intro x hx
  rcases mem_set_decomp l i a x hx with h | h
  · subst h; exact ha
  · exact hl x h

theorem pairwise_rel_of_pos {R : α → α → Prop} (l : List α)
    (hp : l.Pairwise R) (i j : Nat) (hi : i < l.length)
    (hj : j < l.length) (hij : i < j) :
    R (l.get ⟨i, hi⟩) (l.get ⟨j, hj⟩) :=
  List.pairwise_iff_getElem.mp hp i j hi hj hij

theorem pairwise_set_rel {R : α → α → Prop} (l : List α) (i : Nat)
    (a' : α) (hp : l.Pairwise R)
    (h1 : ∀ x, R (l.getD i a') x → R a' x)
    (h2 : ∀ x, R x (l.getD i a') → R x a') :
    (l.set i a').Pairwise R := by
  by_cases hi : i < l.length
  · have hgetD : l.getD i a' = l[i] := by
      rw [List.getD_eq_getElem?_getD, List.getElem?_eq_getElem hi]
      rfl
    rw [hgetD] at h1 h2
    rw [List.pairwise_iff_getElem] at hp ⊢
    intro p q hpl hql hpq
    simp only [List.length_set] at hpl hql
    by_cases hip : i = p
    · subst hip
      rw [List.getElem_set_self (by simpa using hpl),
          List.getElem_set_ne (by omega) (by simpa using hql)]
      exact h1 _ (hp i q hpl hql hpq)
    · by_cases hiq : i = q
      · subst hiq
        rw [List.getElem_set_ne (by omega) (by simpa using hpl),
            List.getElem_set_self (by simpa using hql)]
        exact h2 _ (hp p i hpl hql hpq)
      · rw [List.getElem_set_ne (by omega) (by simpa using hpl),
            List.getElem_set_ne (by omega) (by simpa using hql)]
        exact hp p q hpl hql hpq
  · rw [List.set_eq_of_length_le (by omega)]
    exact hp

theorem exists_clear_of_countClear_ne (bmap : List Bool)
    (h : countClear bmap ≠ 0) :
    ∃ i, i < bmap.length ∧ bmapBit bmap i = false := by
  induction bmap with
  | nil => simp [countClear] at h
  | cons x xs ih =>
    by_cases hx : x = false
    · exact ⟨0, by simp, by simp [bmapBit, hx]⟩
    · have hxt : x = true := by simpa using hx
      have : countClear xs ≠ 0 := by
        simp [countClear, List.countP_cons, hxt] at h ⊢
        exact h
      obtain ⟨i, hi, hbit⟩ := ih this
      exact ⟨i + 1, by simpa using hi, by simpa [bmapBit] using hbit⟩

theorem exists_free_of_countFreeSlots_ne (tab : List Nat)
    (h : countFreeSlots tab ≠ 0) :
    ∃ i, i < tab.length ∧
      tab.getD i TFS_INODE_INUSE = TFS_INODE_FREE := by
  induction tab with
  | nil => simp [countFreeSlots] at h
  | cons x xs ih =>
    by_cases hx : x = TFS_INODE_FREE
    · exact ⟨0, by simp, by simpa using hx⟩
    · have : countFreeSlots xs ≠ 0 := by
        simp [countFreeSlots, List.countP_cons, hx] at h ⊢
        exact h
      obtain ⟨i, hi, hslot⟩ := ih this
      exact ⟨i + 1, by simpa using hi, by simpa using hslot⟩

theorem bmapBit_set_true_mono (bmap : List Bool) (b x : Nat)
    (h : bmapBit bmap x = true) : bmapBit (bmap.set b true) x = true := by
  by_cases hbx : b = x
  · subst hbx
    by_cases hb : b < bmap.length
    · unfold bmapBit
      rw [getD_set_self _ _ _ _ hb]
    · rw [List.set_eq_of_length_le (by omega)]
      exact h
  · unfold bmapBit
    rw [getD_set_ne _ _ _ _ _ hbx]
    exact h

theorem bmapBit_clearList_ne (bs : List Nat) (bmap : List Bool) (x : Nat)
    (hx : x ∉ bs) :
    bmapBit (bs.foldl (fun m b => m.set b false) bmap) x =
      bmapBit bmap x := by
  induction bs generalizing bmap with
  | nil => rfl
  | cons b rest ih =>
    simp only [List.foldl_cons]
    have hxb : b ≠ x := fun hc => hx (by simp [hc])
    rw [ih (bmap.set b false) (fun hc => hx (by simp [hc]))]
    unfold bmapBit
    rw [getD_set_ne _ _ _ _ _ hxb]

/-- `toyfs_dir_add_entry` never changes the directory inode's number,
block count or block list (only size, nlink and the store). -/
theorem add_entry_keys (store : Store) (p : TfsInode) (name : String)
    (inum : Nat) :
    (toyfs_dir_add_entry store p name inum).2.1.i_ino = p.i_ino ∧
    (toyfs_dir_add_entry store p name inum).2.1.i_blocks = p.i_blocks ∧
    (toyfs_dir_add_entry store p name inum).2.1.i_addr = p.i_addr := by
  unfold toyfs_dir_add_entry
  cases hs : scanDir store name (dirAddrs p) none with
  | found b j => simp
  | cont t =>
    cases t with
    | some q => obtain ⟨b, j⟩ := q; simp
    | none => simp

/-- Likewise for `toyfs_dir_del_entry`. -/
theorem del_entry_keys (store : Store) (p : TfsInode) (name : String) :
    (toyfs_dir_del_entry store p name).2.1.i_ino = p.i_ino ∧
    (toyfs_dir_del_entry store p name).2.1.i_blocks = p.i_blocks ∧
    (toyfs_dir_del_entry store p name).2.1.i_addr = p.i_addr := by
  unfold toyfs_dir_del_entry
  cases hs : delScanDir store name (dirAddrs p) with
  | some q => obtain ⟨b, j⟩ := q; simp
  | none => simp

theorem getD_eq_get (l : List α) (i : Nat) (d : α) (h : i < l.length) :
    l.getD i d = l.get ⟨i, h⟩ := by
  induction l generalizing i with
  | nil => simp at h
  | cons x xs ih =>
    cases i with
    | zero => simp [List.get]
    | succ n => simpa using ih n (by simpa using h)

theorem InoWF_congr (tfi : TfsFsInfo) (p p' : TfsInode)
    (hw : InoWF tfi p) (h1 : p'.i_ino = p.i_ino)
    (h2 : p'.i_blocks = p.i_blocks) (h3 : p'.i_addr = p.i_addr) :
    InoWF tfi p' := by
  refine ⟨?_, ?_, ?_, ?_, ?_, ?_, ?_⟩
  · rw [h1]; exact hw.ino_lt
  · rw [h1]; exact hw.slot_inuse
  · rw [h2]; exact hw.blocks_le
  · rw [h3]; exact hw.addr_len
  · intro k hk; rw [h3]; exact hw.addr_lt k (by rwa [← h2])
  · intro k hk; rw [h3]; exact hw.addr_set k (by rwa [← h2])
  · intro k l hk hl; rw [h3]
    exact hw.addr_nodup k l hk (by rwa [← h2])

theorem InoDisj_congr_left (a a' b : TfsInode)
    (h2 : a'.i_blocks = a.i_blocks) (h3 : a'.i_addr = a.i_addr)
    (h : InoDisj a b) : InoDisj a' b := by
  intro k l hk hl
  rw [h3]
  exact h k l (by rwa [← h2]) hl

theorem InoDisj_congr_right (a b b' : TfsInode)
    (h2 : b'.i_blocks = b.i_blocks) (h3 : b'.i_addr = b.i_addr)
    (h : InoDisj a b) : InoDisj a b' := by
  intro k l hk hl
  rw [h3]
  exact h k l hk (by rwa [← h2])

/-- `toyfs_balloc` success preserves the volume invariant. -/
theorem VWF_balloc (s : VState) (b : Nat) (tfi' : TfsFsInfo)
    (h : toyfs_balloc s.tfi = (.ok b, tfi')) (hw : VWF s) :
    VWF ⟨tfi', s.store, s.inodes⟩ := by
  obtain ⟨hbl, hil, hbc, hic, hiw, hdist, hdisj⟩ := hw
  obtain ⟨hf0, hclear, heq⟩ := toyfs_balloc_ok_inv _ _ _ h
  have hcc : countClear s.tfi.bmap ≠ 0 := by rw [← hbc]; exact hf0
  obtain ⟨i0, hi0len, hi0⟩ := exists_clear_of_countClear_ne _ hcc
  obtain ⟨b2, heq2, _, hb2lt, _⟩ :=
    toyfs_balloc_ok s.tfi hf0 i0 (by rw [← hbl]; exact hi0len) hi0
  have hbb : b = b2 := by
    rw [h] at heq2
    have h1 : (Except.ok b : TfsRes Nat) = .ok b2 :=
      congrArg Prod.fst heq2
    exact Except.ok.inj h1
  have hblt : b < s.tfi.bmap.length := by
    rw [hbl, hbb]; exact hb2lt
  subst heq
  refine ⟨?_, hil, ?_, hic, ?_, hdist, hdisj⟩
  · simpa [List.length_set] using hbl
  · show s.tfi.s_bfree - 1 = countClear (s.tfi.bmap.set b true)
    have := countClear_set_true s.tfi.bmap b hblt hclear
    omega
  · intro ino hino
    have hi := hiw ino hino
    refine ⟨hi.ino_lt, hi.slot_inuse, hi.blocks_le, hi.addr_len,
      hi.addr_lt, ?_, hi.addr_nodup⟩
    intro k hk
    exact bmapBit_set_true_mono _ _ _ (hi.addr_set k hk)

/-- `toyfs_ialloc` success preserves the volume invariant. -/
theorem VWF_ialloc (s : VState) (i : Nat) (tfi' : TfsFsInfo)
    (h : toyfs_ialloc s.tfi = (.ok i, tfi')) (hw : VWF s) :
    VWF ⟨tfi', s.store, s.inodes⟩ := by
  obtain ⟨hbl, hil, hbc, hic, hiw, hdist, hdisj⟩ := hw
  obtain ⟨hf0, hslot, hi32, heq⟩ := toyfs_ialloc_ok_inv _ _ _ h
  have hilen : i < s.tfi.s_inodes.length := by rw [hil]; exact hi32
  subst heq
  refine ⟨hbl, ?_, hbc, ?_, ?_, hdist, hdisj⟩
  · simpa [List.length_set] using hil
  · show s.tfi.s_ifree - 1 =
      countFreeSlots (s.tfi.s_inodes.set i TFS_INODE_INUSE)
    have := countFreeSlots_set_inuse s.tfi.s_inodes i hilen hslot
    have hne : s.tfi.s_ifree ≠ 0 := hf0
    omega
  · intro ino hino
    have hi := hiw ino hino
    refine ⟨hi.ino_lt, ?_, hi.blocks_le, hi.addr_len, hi.addr_lt,
      hi.addr_set, hi.addr_nodup⟩
    have hne : i ≠ ino.i_ino := by
      intro hcontra
      subst hcontra
      rw [getD_default_irrel _ _ _ TFS_INODE_FREE hilen] at hslot
      rw [hi.slot_inuse] at hslot
      simp [TFS_INODE_INUSE, TFS_INODE_FREE] at hslot
    show (s.tfi.s_inodes.set i TFS_INODE_INUSE).getD ino.i_ino
      TFS_INODE_FREE = TFS_INODE_INUSE
    rw [getD_set_ne _ _ _ _ _ hne]
    exact hi.slot_inuse

/-- `toyfs_dir_add_entry` preserves the volume invariant (it touches
only directory content, size and link count). -/
theorem VWF_dirAdd (s : VState) (i : Nat) (h : i < s.inodes.length)
    (name : String) (inum : Nat) (hw : VWF s) :
    VWF ⟨s.tfi,
         (toyfs_dir_add_entry s.store (s.inodes.get ⟨i, h⟩) name
            inum).2.2,
         s.inodes.set i (toyfs_dir_add_entry s.store
            (s.inodes.get ⟨i, h⟩) name inum).2.1⟩ := by
  obtain ⟨hbl, hil, hbc, hic, hiw, hdist, hdisj⟩ := hw
  obtain ⟨hk1, hk2, hk3⟩ :=
    add_entry_keys s.store (s.inodes.get ⟨i, h⟩) name inum
  set p' := (toyfs_dir_add_entry s.store (s.inodes.get ⟨i, h⟩) name
    inum).2.1 with hp'
  have hmem : s.inodes.get ⟨i, h⟩ ∈ s.inodes := List.get_mem _ _ _
  have hgetD : s.inodes.getD i p' = s.inodes.get ⟨i, h⟩ :=
    getD_eq_get _ _ _ h
  refine ⟨hbl, hil, hbc, hic, ?_, ?_, ?_⟩
  · exact forall_mem_set _ _ _ _ hiw
      (InoWF_congr _ _ _ (hiw _ hmem) hk1 hk2 hk3)
  · refine pairwise_set_rel _ _ _ hdist ?_ ?_
    · intro x hx
      rw [hgetD] at hx
      rw [hk1]
      exact hx
    · intro x hx
      rw [hgetD] at hx
      rw [hk1]
      exact hx
  · refine pairwise_set_rel _ _ _ hdisj ?_ ?_
    · intro x hx
      rw [hgetD] at hx
      exact InoDisj_congr_left _ _ _ hk2 hk3 hx
    · intro x hx
      rw [hgetD] at hx
      exact InoDisj_congr_right _ _ _ hk2 hk3 hx

/-- `toyfs_dir_del_entry` preserves the volume invariant. -/
theorem VWF_dirDel (s : VState) (i : Nat) (h : i < s.inodes.length)
    (name : String) (hw : VWF s) :
    VWF ⟨s.tfi,
         (toyfs_dir_del_entry s.store (s.inodes.get ⟨i, h⟩) name).2.2,
         s.inodes.set i (toyfs_dir_del_entry s.store
            (s.inodes.get ⟨i, h⟩) name).2.1⟩ := by
  obtain ⟨hbl, hil, hbc, hic, hiw, hdist, hdisj⟩ := hw
  obtain ⟨hk1, hk2, hk3⟩ :=
    del_entry_keys s.store (s.inodes.get ⟨i, h⟩) name
  set p' := (toyfs_dir_del_entry s.store (s.inodes.get ⟨i, h⟩)
    name).2.1 with hp'
  have hmem : s.inodes.get ⟨i, h⟩ ∈ s.inodes := List.get_mem _ _ _
  have hgetD : s.inodes.getD i p' = s.inodes.get ⟨i, h⟩ :=
    getD_eq_get _ _ _ h
  refine ⟨hbl, hil, hbc, hic, ?_, ?_, ?_⟩
  · exact forall_mem_set _ _ _ _ hiw
      (InoWF_congr _ _ _ (hiw _ hmem) hk1 hk2 hk3)
  · refine pairwise_set_rel _ _ _ hdist ?_ ?_
    · intro x hx
      rw [hgetD] at hx
      rw [hk1]
      exact hx
    · intro x hx
      rw [hgetD] at hx
      rw [hk1]
      exact hx
  · refine pairwise_set_rel _ _ _ hdisj ?_ ?_
    · intro x hx
      rw [hgetD] at hx
      exact InoDisj_congr_left _ _ _ hk2 hk3 hx
    · intro x hx
      rw [hgetD] at hx
      exact InoDisj_congr_right _ _ _ hk2 hk3 hx

theorem InoDisj_symm (a b : TfsInode) (h : InoDisj a b) : InoDisj b a :=
  fun k l hk hl => (h l k hl hk).symm

/-- The invariant does not mention the data-block store. -/
theorem VWF_store_irrel (tfi : TfsFsInfo) (st st' : Store)
    (inos : List TfsInode) (hw : VWF ⟨tfi, st, inos⟩) :
    VWF ⟨tfi, st', inos⟩ :=
  ⟨hw.bmap_len, hw.itab_len, hw.bcount, hw.icount, hw.inosWF,
   hw.ino_distinct, hw.blocks_disjoint⟩

/-- Appending a freshly created inode that owns its slot and blocks
keeps the invariant. -/
theorem VWF_append_ip (s : VState) (hw : VWF s) (ip : TfsInode)
    (hipw : InoWF s.tfi ip)
    (hne : ∀ x ∈ s.inodes, x.i_ino ≠ ip.i_ino)
    (hdj : ∀ x ∈ s.inodes, InoDisj x ip) :
    VWF ⟨s.tfi, s.store, s.inodes ++ [ip]⟩ := by
  obtain ⟨hbl, hil, hbc, hic, hiw, hdist, hdisj⟩ := hw
  refine ⟨hbl, hil, hbc, hic, ?_, ?_, ?_⟩
  · intro x hx
    rcases List.mem_append.mp hx with hx | hx
    · exact hiw x hx
    · rw [List.mem_singleton.mp hx]
      exact hipw
  · refine List.pairwise_append.mpr ⟨hdist, by simp, ?_⟩
    intro a ha b hb
    rw [List.mem_singleton.mp hb]
    exact hne a ha
  · refine List.pairwise_append.mpr ⟨hdisj, by simp, ?_⟩
    intro a ha b hb
    rw [List.mem_singleton.mp hb]
    exact hdj a ha

theorem length_clearList (bs : List Nat) (bmap : List Bool) :
    (bs.foldl (fun m b => m.set b false) bmap).length = bmap.length := by
  induction bs generalizing bmap with
  | nil => rfl
  | cons b rest ih =>
    simp only [List.foldl_cons]
    rw [ih, List.length_set]

/-- `toyfs_evict_inode` preserves the volume invariant. -/
theorem VWF_evict (s : VState) (i : Nat) (h : i < s.inodes.length)
    (hw : VWF s) :
    VWF ⟨toyfs_evict_inode s.tfi (s.inodes.get ⟨i, h⟩), s.store,
         s.inodes.eraseIdx i⟩ := by
  obtain ⟨hbl, hil, hbc, hic, hiw, hdist, hdisj⟩ := hw
  have hmem : s.inodes.get ⟨i, h⟩ ∈ s.inodes := List.get_mem _ _ _
  have hew := hiw _ hmem
  have hsub : ∀ x ∈ s.inodes.eraseIdx i, x ∈ s.inodes :=
    fun x hx => (List.eraseIdx_sublist s.inodes i).subset hx
  have hrem : ∀ x ∈ s.inodes.eraseIdx i,
      x.i_ino ≠ (s.inodes.get ⟨i, h⟩).i_ino ∧
      InoDisj (s.inodes.get ⟨i, h⟩) x := by
    intro x hx
    obtain ⟨j, hj, hji, hget⟩ := mem_eraseIdx_decomp _ _ _ hx
    rcases Nat.lt_or_ge j i with hlt | hge
    · have h1 := pairwise_rel_of_pos _ hdist j i hj h hlt
      have h2 := pairwise_rel_of_pos _ hdisj j i hj h hlt
      rw [hget] at h1 h2
      exact ⟨h1, InoDisj_symm _ _ h2⟩
    · have hlt2 : i < j := by omega
      have h1 := pairwise_rel_of_pos _ hdist i j h hj hlt2
      have h2 := pairwise_rel_of_pos _ hdisj i j h hj hlt2
      rw [hget] at h1 h2
      exact ⟨h1.symm, h2⟩
  by_cases hnl : (s.inodes.get ⟨i, h⟩).i_nlink = 0
  · rw [toyfs_evict_inode_spec _ _ hnl]
    set e := s.inodes.get ⟨i, h⟩ with hedef
    set bs := (List.range e.i_blocks).map (fun k => e.i_addr.getD k 0)
      with hbs
    have hfold : (List.range e.i_blocks).foldl
        (fun m k => m.set (e.i_addr.getD k 0) false) s.tfi.bmap =
        bs.foldl (fun m b => m.set b false) s.tfi.bmap := by
      rw [hbs, List.foldl_map]
    have hbsmem : ∀ b ∈ bs, ∃ k, k < e.i_blocks ∧
        b = e.i_addr.getD k 0 := by
      intro b hb
      rw [hbs] at hb
      obtain ⟨k, hk, hkb⟩ := List.mem_map.mp hb
      exact ⟨k, List.mem_range.mp hk, hkb.symm⟩
    have hbsnd : bs.Nodup := by
      show bs.Pairwise (· ≠ ·)
      rw [List.pairwise_iff_getElem]
      intro p q hp hq hpq
      rw [hbs] at hp hq
      simp only [List.length_map, List.length_range] at hp hq
      simp only [hbs, List.getElem_map, List.getElem_range]
      exact hew.addr_nodup p q hpq hq
    have hbsset : ∀ b ∈ bs, bmapBit s.tfi.bmap b = true := by
      intro b hb
      obtain ⟨k, hk, rfl⟩ := hbsmem b hb
      exact hew.addr_set k hk
    have hbslt : ∀ b ∈ bs, b < s.tfi.bmap.length := by
      intro b hb
      obtain ⟨k, hk, rfl⟩ := hbsmem b hb
      rw [hbl]
      exact hew.addr_lt k hk
    have hbslen : bs.length = e.i_blocks := by
      rw [hbs]
      simp
    have hein_lt : e.i_ino < s.tfi.s_inodes.length := by
      rw [hil]; exact hew.ino_lt
    refine ⟨?_, ?_, ?_, ?_, ?_, ?_, ?_⟩
    · show ((List.range e.i_blocks).foldl
        (fun m k => m.set (e.i_addr.getD k 0) false) s.tfi.bmap).length =
          TFS_MAX_BLKS
      rw [hfold, length_clearList, hbl]
    · show (s.tfi.s_inodes.set e.i_ino TFS_INODE_FREE).length =
        TFS_INODE_COUNT
      rw [List.length_set, hil]
    · show s.tfi.s_bfree + e.i_blocks = countClear _
      rw [hfold, countClear_clearList bs s.tfi.bmap hbsnd hbsset hbslt,
        hbslen]
      omega
    · show s.tfi.s_ifree + 1 =
        countFreeSlots (s.tfi.s_inodes.set e.i_ino TFS_INODE_FREE)
      have hne0 : s.tfi.s_inodes.getD e.i_ino TFS_INODE_FREE ≠
          TFS_INODE_FREE := by
        rw [hew.slot_inuse]
        simp [TFS_INODE_INUSE, TFS_INODE_FREE]
      rw [countFreeSlots_set_free s.tfi.s_inodes e.i_ino hein_lt hne0]
      omega
    · intro x hx
      obtain ⟨hxne, hxdj⟩ := hrem x hx
      have hxw := hiw x (hsub x hx)
      refine ⟨hxw.ino_lt, ?_, hxw.blocks_le, hxw.addr_len, hxw.addr_lt,
        ?_, hxw.addr_nodup⟩
      · show (s.tfi.s_inodes.set e.i_ino TFS_INODE_FREE).getD x.i_ino
          TFS_INODE_FREE = TFS_INODE_INUSE
        rw [getD_set_ne _ _ _ _ _ (fun hc => hxne (by rw [hc]))]
        exact hxw.slot_inuse
      · intro k hk
        show bmapBit ((List.range e.i_blocks).foldl
          (fun m k => m.set (e.i_addr.getD k 0) false) s.tfi.bmap)
          (x.i_addr.getD k 0) = true
        rw [hfold, bmapBit_clearList_ne]
        · exact hxw.addr_set k hk
        · intro hcmem
          obtain ⟨l, hl, hlb⟩ := hbsmem _ hcmem
          exact hxdj l k hl hk hlb.symm
    · exact hdist.sublist (List.eraseIdx_sublist s.inodes i)
    · exact hdisj.sublist (List.eraseIdx_sublist s.inodes i)
  · rw [toyfs_evict_inode_linked _ _ hnl]
    refine ⟨hbl, hil, hbc, hic, fun x hx => hiw x (hsub x hx), ?_, ?_⟩
    · exact hdist.sublist (List.eraseIdx_sublist s.inodes i)
    · exact hdisj.sublist (List.eraseIdx_sublist s.inodes i)

/-- The common insert tail of `toyfs_new_inode` preserves the volume
invariant, whatever the insert outcome, as long as the new inode owns
its table slot and its blocks. -/
theorem VWF_finish (s1 : VState) (hw1 : VWF s1) (i : Nat)
    (h : i < s1.inodes.length) (name : String) (ip : TfsInode)
    (hip : InoWF s1.tfi ip)
    (hne : ∀ x ∈ s1.inodes, x.i_ino ≠ ip.i_ino)
    (hdj : ∀ x ∈ s1.inodes, InoDisj x ip) :
    VWF ⟨(toyfs_new_inode_finish s1.tfi s1.store (s1.inodes.get ⟨i, h⟩)
            name ip).2.2.1,
         (toyfs_new_inode_finish s1.tfi s1.store (s1.inodes.get ⟨i, h⟩)
            name ip).2.2.2,
         (s1.inodes.set i (toyfs_new_inode_finish s1.tfi s1.store
            (s1.inodes.get ⟨i, h⟩) name ip).2.1) ++
         (match (toyfs_new_inode_finish s1.tfi s1.store
             (s1.inodes.get ⟨i, h⟩) name ip).1 with
          | .ok ip2 => [ip2]
          | .error _ => [])⟩ := by
  set parent := s1.inodes.get ⟨i, h⟩ with hparent
  obtain ⟨hk1, hk2, hk3⟩ := add_entry_keys s1.store parent name ip.i_ino
  have hmem : parent ∈ s1.inodes := by
    rw [hparent]; exact List.get_mem _ _ _
  have hw' : VWF ⟨s1.tfi,
      (toyfs_dir_add_entry s1.store parent name ip.i_ino).2.2,
      s1.inodes.set i (toyfs_dir_add_entry s1.store parent name
        ip.i_ino).2.1⟩ := VWF_dirAdd s1 i h name ip.i_ino hw1
  cases hr : (toyfs_dir_add_entry s1.store parent name ip.i_ino).1 with
  | error e =>
    have hpair : toyfs_dir_add_entry s1.store parent name ip.i_ino =
        (.error e,
         (toyfs_dir_add_entry s1.store parent name ip.i_ino).2.1,
         (toyfs_dir_add_entry s1.store parent name ip.i_ino).2.2) := by
      rw [← hr]
    have hfin : toyfs_new_inode_finish s1.tfi s1.store parent name ip =
        (.error e,
         (toyfs_dir_add_entry s1.store parent name ip.i_ino).2.1,
         s1.tfi,
         (toyfs_dir_add_entry s1.store parent name ip.i_ino).2.2) := by
      unfold toyfs_new_inode_finish
      rw [hpair]
    have hres : VWF ⟨s1.tfi,
        (toyfs_dir_add_entry s1.store parent name ip.i_ino).2.2,
        s1.inodes.set i (toyfs_dir_add_entry s1.store parent name
          ip.i_ino).2.1 ++ []⟩ := by
      rw [List.append_nil]
      exact hw'
    rw [hfin]
    exact hres
  | ok u =>
    have hpair : toyfs_dir_add_entry s1.store parent name ip.i_ino =
        (.ok u,
         (toyfs_dir_add_entry s1.store parent name ip.i_ino).2.1,
         (toyfs_dir_add_entry s1.store parent name ip.i_ino).2.2) := by
      rw [← hr]
    have hfin : toyfs_new_inode_finish s1.tfi s1.store parent name ip =
        (.ok ip,
         (toyfs_dir_add_entry s1.store parent name ip.i_ino).2.1,
         s1.tfi,
         (toyfs_dir_add_entry s1.store parent name ip.i_ino).2.2) := by
      unfold toyfs_new_inode_finish
      rw [hpair]
    have hres : VWF ⟨s1.tfi,
        (toyfs_dir_add_entry s1.store parent name ip.i_ino).2.2,
        s1.inodes.set i (toyfs_dir_add_entry s1.store parent name
          ip.i_ino).2.1 ++ [ip]⟩ := by
      refine VWF_append_ip ⟨s1.tfi,
        (toyfs_dir_add_entry s1.store parent name ip.i_ino).2.2,
        s1.inodes.set i (toyfs_dir_add_entry s1.store parent name
          ip.i_ino).2.1⟩ hw' ip hip ?_ ?_
      · intro x hx
        rcases mem_set_decomp _ _ _ _ hx with hxp | hxs
        · rw [hxp, hk1]
          exact hne parent hmem
        · exact hne x hxs
      · intro x hx
        rcases mem_set_decomp _ _ _ _ hx with hxp | hxs
        · rw [hxp]
          exact InoDisj_congr_left _ _ _ hk2 hk3 (hdj parent hmem)
        · exact hdj x hxs
    rw [hfin]
    exact hres

/-- A `create` step (`toyfs_new_inode`, any outcome short of `BUG()`)
preserves the volume invariant. -/
theorem VWF_create (s : VState) (i : Nat) (h : i < s.inodes.length)
    (name : String) (mode : Nat) (target : String)
    (hnb : (toyfs_new_inode s.tfi s.store (s.inodes.get ⟨i, h⟩) name
      mode target).1 ≠ .error .EBUG) (hw : VWF s) :
    VWF ⟨(toyfs_new_inode s.tfi s.store (s.inodes.get ⟨i, h⟩) name mode
        target).2.2.1,
      (toyfs_new_inode s.tfi s.store (s.inodes.get ⟨i, h⟩) name mode
        target).2.2.2,
      (s.inodes.set i (toyfs_new_inode s.tfi s.store
        (s.inodes.get ⟨i, h⟩) name mode target).2.1) ++
      (match (toyfs_new_inode s.tfi s.store (s.inodes.get ⟨i, h⟩)
          name mode target).1 with
       | .ok ip => [ip]
       | .error _ => [])⟩ := by
  set parent := s.inodes.get ⟨i, h⟩ with hparent
  by_cases h0 : s.tfi.s_ifree = 0
  · have hieq := toyfs_ialloc_enospc s.tfi h0
    have heq : toyfs_new_inode s.tfi s.store parent name mode target =
        (.error .ENOSPC, parent, s.tfi, s.store) := by
      unfold toyfs_new_inode
      rw [hieq]
    have hres : VWF ⟨s.tfi, s.store, s.inodes.set i parent ++ []⟩ := by
      rw [List.append_nil, hparent, set_get_self]
      exact hw
    rw [heq]
    exact hres
  · have hff : countFreeSlots s.tfi.s_inodes ≠ 0 := by
      rw [← hw.icount]; exact h0
    obtain ⟨j0, hj0len, hj0⟩ := exists_free_of_countFreeSlots_ne _ hff
    obtain ⟨inum, hieq, hi32, hslot, hminsl⟩ :=
      toyfs_ialloc_ok s.tfi h0 j0 (by rw [← hw.itab_len]; exact hj0len)
        hj0
    set tfi1 : TfsFsInfo := { s.tfi with
      s_inodes := s.tfi.s_inodes.set inum TFS_INODE_INUSE,
      s_ifree := s.tfi.s_ifree - 1 } with htfi1
    have hw1 : VWF ⟨tfi1, s.store, s.inodes⟩ :=
      VWF_ialloc s inum tfi1 hieq hw
    have hinum_len : inum < s.tfi.s_inodes.length := by
      rw [hw.itab_len]; exact hi32
    have hslotD : tfi1.s_inodes.getD inum TFS_INODE_FREE =
        TFS_INODE_INUSE := by
      show (s.tfi.s_inodes.set inum TFS_INODE_INUSE).getD inum
        TFS_INODE_FREE = TFS_INODE_INUSE
      exact getD_set_self _ _ _ _ hinum_len
    have hne_all : ∀ x ∈ s.inodes, x.i_ino ≠ inum := by
      intro x hx hc
      have hxslot := (hw.inosWF x hx).slot_inuse
      rw [hc] at hxslot
      rw [getD_default_irrel _ _ _ TFS_INODE_INUSE hinum_len] at hxslot
      rw [hslot] at hxslot
      exact absurd hxslot (by decide)
    set ip0 : TfsInode :=
      { i_ino := inum, i_mode := mode, i_nlink := 1, i_uid := 0,
        i_gid := 0, i_size := 0, i_blocks := 0,
        i_addr := List.replicate TFS_MAX_INO_BLKS TFS_INVALID,
        i_link := "" } with hip0def
    have hbc1 : tfi1.s_bfree = countClear tfi1.bmap := hw1.bcount
    have hbl1 : tfi1.bmap.length = TFS_MAX_BLKS := hw1.bmap_len
    by_cases hreg : S_ISREG mode = true
    · have hip0 : InoWF tfi1 ip0 := by
        refine ⟨hi32, hslotD, ?_, ?_, ?_, ?_, ?_⟩
        · show (0 : Nat) ≤ TFS_MAX_INO_BLKS
          decide
        · show (List.replicate TFS_MAX_INO_BLKS TFS_INVALID).length =
            TFS_MAX_INO_BLKS
          simp
        · intro k hk
          exact absurd hk (Nat.not_lt_zero k)
        · intro k hk
          exact absurd hk (Nat.not_lt_zero k)
        · intro k l hkl hl
          exact absurd hl (Nat.not_lt_zero l)
      have heq : toyfs_new_inode s.tfi s.store parent name mode target =
          toyfs_new_inode_finish tfi1 s.store parent name ip0 := by
        unfold toyfs_new_inode
        rw [hieq]
        simp only [if_pos hreg]
      rw [heq]
      exact VWF_finish ⟨tfi1, s.store, s.inodes⟩ hw1 i h name ip0 hip0
        hne_all (fun x hx k l hk hl => absurd hl (Nat.not_lt_zero l))
    · by_cases hdir : S_ISDIR mode = true
      · by_cases hbf : tfi1.s_bfree = 0
        · have hbeq := toyfs_balloc_enospc tfi1 hbf
          have heq : toyfs_new_inode s.tfi s.store parent name mode
              target = (.error .ENOSPC, parent, tfi1, s.store) := by
            unfold toyfs_new_inode
            rw [hieq]
            simp only [if_neg hreg, if_pos hdir]
            rw [hbeq]
          have hres : VWF ⟨tfi1, s.store, s.inodes.set i parent ++ []⟩ := by
            rw [List.append_nil, hparent, set_get_self]
            exact hw1
          rw [heq]
          exact hres
        · have hcc : countClear tfi1.bmap ≠ 0 := by
            rw [← hbc1]; exact hbf
          obtain ⟨b0, hb0len, hb0⟩ := exists_clear_of_countClear_ne _ hcc
          obtain ⟨blk, hbeq, hclear, hblt, hminb⟩ :=
            toyfs_balloc_ok tfi1 hbf b0 (by rw [← hbl1]; exact hb0len) hb0
          set tfi2 : TfsFsInfo := { tfi1 with
            bmap := tfi1.bmap.set blk true,
            s_bfree := tfi1.s_bfree - 1 } with htfi2
          have hw2 : VWF ⟨tfi2, s.store, s.inodes⟩ :=
            VWF_balloc ⟨tfi1, s.store, s.inodes⟩ blk tfi2 hbeq hw1
          set store2 : Store := fun x =>
            if x = blk then
              .dirB (initDirBlock (s.store blk) inum parent.i_ino)
            else s.store x with hstore2
          set ip1 : TfsInode :=
            { i_ino := inum, i_mode := mode, i_nlink := 2, i_uid := 0,
              i_gid := 0, i_size := 2 * TFS_DENTRY_SIZE, i_blocks := 1,
              i_addr := (List.replicate TFS_MAX_INO_BLKS
                TFS_INVALID).set 0 blk,
              i_link := "" } with hip1def
          have hip1 : InoWF tfi2 ip1 := by
            refine ⟨hi32, hslotD, ?_, ?_, ?_, ?_, ?_⟩
            · show (1 : Nat) ≤ TFS_MAX_INO_BLKS
              decide
            · show ((List.replicate TFS_MAX_INO_BLKS TFS_INVALID).set 0
                blk).length = TFS_MAX_INO_BLKS
              simp
            · intro k hk
              have hk1 : k < 1 := hk
              have hk0 : k = 0 := by omega
              subst hk0
              show ((List.replicate TFS_MAX_INO_BLKS TFS_INVALID).set 0
                blk).getD 0 0 < TFS_MAX_BLKS
              rw [getD_set_self _ _ _ _ (by simp [TFS_MAX_INO_BLKS])]
              exact hblt
            · intro k hk
              have hk1 : k < 1 := hk
              have hk0 : k = 0 := by omega
              subst hk0
              show bmapBit (tfi1.bmap.set blk true)
                (((List.replicate TFS_MAX_INO_BLKS TFS_INVALID).set 0
                  blk).getD 0 0) = true
              rw [getD_set_self _ _ _ _ (by simp [TFS_MAX_INO_BLKS])]
              unfold bmapBit
              exact getD_set_self _ _ _ _ (by rw [hbl1]; exact hblt)
            · intro k l hkl hl
              have hl1 : l < 1 := hl
              omega
          have hdj1 : ∀ x ∈ s.inodes, InoDisj x ip1 := by
            intro x hx k l hk hl
            have hl1 : l < 1 := hl
            have hl0 : l = 0 := by omega
            subst hl0
            show x.i_addr.getD k 0 ≠
              ((List.replicate TFS_MAX_INO_BLKS TFS_INVALID).set 0
                blk).getD 0 0
            rw [getD_set_self _ _ _ _ (by simp [TFS_MAX_INO_BLKS])]
            intro hcontra
            have hset := (hw.inosWF x hx).addr_set k hk
            rw [hcontra] at hset
            have hclear2 : bmapBit s.tfi.bmap blk = false := hclear
            rw [hset] at hclear2
            exact absurd hclear2 (by decide)
          have heq : toyfs_new_inode s.tfi s.store parent name mode
              target = toyfs_new_inode_finish tfi2 store2 parent name
                ip1 := by
            unfold toyfs_new_inode
            rw [hieq]
            simp only [if_neg hreg, if_pos hdir]
            rw [hbeq]
          rw [heq]
          exact VWF_finish ⟨tfi2, store2, s.inodes⟩
            (VWF_store_irrel tfi2 s.store store2 s.inodes hw2) i h name
            ip1 hip1 hne_all hdj1
      · by_cases hlnk : S_ISLNK mode = true
        · by_cases hlen : TFS_MAX_NLEN ≤ min target.length TFS_MAX_NLEN
          · have heq : toyfs_new_inode s.tfi s.store parent name mode
                target = (.error .ENAMETOOLONG, parent, tfi1,
                  s.store) := by
              unfold toyfs_new_inode
              rw [hieq]
              simp only [if_neg hreg, if_neg hdir, if_pos hlnk]
              rw [if_pos hlen]
            have hres : VWF ⟨tfi1, s.store,
                s.inodes.set i parent ++ []⟩ := by
              rw [List.append_nil, hparent, set_get_self]
              exact hw1
            rw [heq]
            exact hres
          · by_cases hbf : tfi1.s_bfree = 0
            · have hbeq := toyfs_balloc_enospc tfi1 hbf
              have heq : toyfs_new_inode s.tfi s.store parent name mode
                  target = (.error .ENOSPC, parent, tfi1, s.store) := by
                unfold toyfs_new_inode
                rw [hieq]
                simp only [if_neg hreg, if_neg hdir, if_pos hlnk]
                rw [if_neg hlen, hbeq]
              have hres : VWF ⟨tfi1, s.store,
                  s.inodes.set i parent ++ []⟩ := by
                rw [List.append_nil, hparent, set_get_self]
                exact hw1
              rw [heq]
              exact hres
            · have hcc : countClear tfi1.bmap ≠ 0 := by
                rw [← hbc1]; exact hbf
              obtain ⟨b0, hb0len, hb0⟩ :=
                exists_clear_of_countClear_ne _ hcc
              obtain ⟨blk, hbeq, hclear, hblt, hminb⟩ :=
                toyfs_balloc_ok tfi1 hbf b0
                  (by rw [← hbl1]; exact hb0len) hb0
              set tfi2 : TfsFsInfo := { tfi1 with
                bmap := tfi1.bmap.set blk true,
                s_bfree := tfi1.s_bfree - 1 } with htfi2
              have hw2 : VWF ⟨tfi2, s.store, s.inodes⟩ :=
                VWF_balloc ⟨tfi1, s.store, s.inodes⟩ blk tfi2 hbeq hw1
              set store2 : Store := fun x =>
                if x = blk then .lnkB target else s.store x with hstore2
              set ip2 : TfsInode :=
                { i_ino := inum, i_mode := mode, i_nlink := 1,
                  i_uid := 0, i_gid := 0,
                  i_size := min target.length TFS_MAX_NLEN,
                  i_blocks := 1,
                  i_addr := (List.replicate TFS_MAX_INO_BLKS
                    TFS_INVALID).set 0 blk,
                  i_link := target } with hip2def
              have hip2 : InoWF tfi2 ip2 := by
                refine ⟨hi32, hslotD, ?_, ?_, ?_, ?_, ?_⟩
                · show (1 : Nat) ≤ TFS_MAX_INO_BLKS
                  decide
                · show ((List.replicate TFS_MAX_INO_BLKS
                    TFS_INVALID).set 0 blk).length = TFS_MAX_INO_BLKS
                  simp
                · intro k hk
                  have hk1 : k < 1 := hk
                  have hk0 : k = 0 := by omega
                  subst hk0
                  show ((List.replicate TFS_MAX_INO_BLKS
                    TFS_INVALID).set 0 blk).getD 0 0 < TFS_MAX_BLKS
                  rw [getD_set_self _ _ _ _ (by simp [TFS_MAX_INO_BLKS])]
                  exact hblt
                · intro k hk
                  have hk1 : k < 1 := hk
                  have hk0 : k = 0 := by omega
                  subst hk0
                  show bmapBit (tfi1.bmap.set blk true)
                    (((List.replicate TFS_MAX_INO_BLKS TFS_INVALID).set
                      0 blk).getD 0 0) = true
                  rw [getD_set_self _ _ _ _ (by simp [TFS_MAX_INO_BLKS])]
                  unfold bmapBit
                  exact getD_set_self _ _ _ _ (by rw [hbl1]; exact hblt)
                · intro k l hkl hl
                  have hl1 : l < 1 := hl
                  omega
              have hdj2 : ∀ x ∈ s.inodes, InoDisj x ip2 := by
                intro x hx k l hk hl
                have hl1 : l < 1 := hl
                have hl0 : l = 0 := by omega
                subst hl0
                show x.i_addr.getD k 0 ≠
                  ((List.replicate TFS_MAX_INO_BLKS TFS_INVALID).set 0
                    blk).getD 0 0
                rw [getD_set_self _ _ _ _ (by simp [TFS_MAX_INO_BLKS])]
                intro hcontra
                have hset := (hw.inosWF x hx).addr_set k hk
                rw [hcontra] at hset
                have hclear2 : bmapBit s.tfi.bmap blk = false := hclear
                rw [hset] at hclear2
                exact absurd hclear2 (by decide)
              have heq : toyfs_new_inode s.tfi s.store parent name mode
                  target = toyfs_new_inode_finish tfi2 store2 parent
                    name ip2 := by
                unfold toyfs_new_inode
                rw [hieq]
                simp only [if_neg hreg, if_neg hdir, if_pos hlnk]
                rw [if_neg hlen, hbeq]
              rw [heq]
              exact VWF_finish ⟨tfi2, store2, s.inodes⟩
                (VWF_store_irrel tfi2 s.store store2 s.inodes hw2) i h
                name ip2 hip2 hne_all hdj2
        · have heq : toyfs_new_inode s.tfi s.store parent name mode
              target = (.error .EBUG, parent, tfi1, s.store) := by
            unfold toyfs_new_inode
            rw [hieq]
            simp only [if_neg hreg, if_neg hdir, if_neg hlnk]
          exact absurd (by rw [heq] :
            (toyfs_new_inode s.tfi s.store parent name mode target).1 =
              .error .EBUG) hnb

/-- Every modelled operation preserves the volume invariant. -/
theorem step_preserves_VWF (s s' : VState) (hs : Step s s')
    (hw : VWF s) : VWF s' := by
  cases hs with
  | balloc b tfi' hb => exact VWF_balloc s b tfi' hb hw
  | ialloc j tfi' hj => exact VWF_ialloc s j tfi' hj hw
  | create j hj name mode target hnb =>
      exact VWF_create s j hj name mode target hnb hw
  | dirAdd j hj name inum => exact VWF_dirAdd s j hj name inum hw
  | dirDel j hj name => exact VWF_dirDel s j hj name hw
  | evict j hj => exact VWF_evict s j hj hw

/-- The volume invariant holds in every reachable state. -/
theorem Reach_preserves_VWF (s s' : VState) (hr : Reach s s')
    (hw : VWF s) : VWF s' := by
  have hr2 : Relation.ReflTransGen Step s s' := hr
  clear hr
  induction hr2 with
  | refl => exact hw
  | tail hab hbc ih => exact step_preserves_VWF _ _ hbc ih

/-- C1 (corrected): starting from any well-formed volume state — in
particular a freshly mounted one — every state reachable by a
sequence of the exposed operations other than the standalone
`toyfs_bfree` (block allocate, inode allocate, create, directory
insert and remove, evict) has its free-block count equal to the
number of cleared bits in the block bitmap and its free-inode count
equal to the number of free entries in the inode in-use table.  The
standalone block-free breaks the invariant (see the counterexample):
`toyfs_bfree` clears the bitmap bit without touching `s_bfree`. -/
theorem claim_C1_free_count_invariant (s0 s : VState) (hw0 : VWF s0)
    (hr : Reach s0 s) :
    s.tfi.s_bfree = countClear s.tfi.bmap ∧
    s.tfi.s_ifree = countFreeSlots s.tfi.s_inodes := by
  have hw := Reach_preserves_VWF s0 s hr hw0
  exact ⟨hw.bcount, hw.icount⟩

/-- A freshly mounted volume: the root inode occupies slot 0 and the
superblock, bitmap, inode-table and root directory blocks 0-3 are in
use; no in-core inodes are cached yet. -/
def c1tfi : TfsFsInfo :=
  { s_bfree := 508, s_ifree := 31,
    s_inodes := (List.replicate TFS_INODE_COUNT TFS_INODE_FREE).set 0
      TFS_INODE_INUSE,
    bmap := ((((List.replicate TFS_MAX_BLKS false).set 0 true).set 1
      true).set 2 true).set 3 true }

def c1v0 : VState := ⟨c1tfi, fun _ => TfsBlock.dirB [], []⟩

def c1v1 : VState :=
  ⟨(toyfs_balloc c1tfi).2, fun _ => TfsBlock.dirB [], []⟩

def c1v2 : VState :=
  ⟨toyfs_bfree (toyfs_balloc c1tfi).2 4, fun _ => TfsBlock.dirB [], []⟩

theorem claim_C1_free_count_invariant_witness :
    VWF c1v0 ∧ Reach c1v0 c1v1 ∧
    (c1v1.tfi.s_bfree = countClear c1v1.tfi.bmap ∧
     c1v1.tfi.s_ifree = countFreeSlots c1v1.tfi.s_inodes) := by
  have hw0 : VWF c1v0 :=
    ⟨by decide, by decide, by decide, by decide,
     by intro x hx; simp [c1v0] at hx,
     List.Pairwise.nil, List.Pairwise.nil⟩
  have hstep : Step c1v0 c1v1 :=
    Step.balloc c1v0 4 (toyfs_balloc c1tfi).2 (by decide)
  have hr : Reach c1v0 c1v1 := Relation.ReflTransGen.single hstep
  exact ⟨hw0, hr, claim_C1_free_count_invariant c1v0 c1v1 hw0 hr⟩

/-- C1 as stated is false: the claim's operation list includes the
standalone free-block operation, and one `toyfs_balloc` followed by
one `toyfs_bfree` leaves a reachable state whose free-block count
(507) disagrees with the number of cleared bitmap bits (508), because
`toyfs_bfree` clears the bit without incrementing `s_bfree`. -/
theorem claim_C1_counterexample :
    VWF c1v0 ∧ ReachO c1v0 c1v2 ∧
    c1v2.tfi.s_bfree ≠ countClear c1v2.tfi.bmap := by
  refine ⟨⟨by decide, by decide, by decide, by decide,
    by intro x hx; simp [c1v0] at hx,
    List.Pairwise.nil, List.Pairwise.nil⟩, ?_, by decide⟩
  have h1 : StepO c1v0 c1v1 :=
    StepO.lift (Step.balloc c1v0 4 (toyfs_balloc c1tfi).2 (by decide))
  have h2 : StepO c1v1 c1v2 := StepO.bfree c1v1 4
  exact Relation.ReflTransGen.tail (Relation.ReflTransGen.single h1) h2

end ToyFS
